import Mathlib

/-!
Verification of the ClassifyTeams pipeline.

This file embeds the two source programs of the repository in Lean 4:

* `anonymize_messages.py` — the thread assembler: groups raw Teams messages
  by conversation id, strips markup, anonymizes authors, and sorts messages
  and threads chronologically.
* `classify_threads.py` — the thread classifier: drives each assembled
  thread through an external classification service with a bounded retry
  loop and per-thread incremental persistence.

Machinery the source delegates to the Python standard library (the HTML
entity table of `html.unescape`, the ISO-8601 grammar of
`datetime.fromisoformat`, JSON (de)serialization, and the network
transport) is modelled explicitly where its behaviour is design-bearing
and abstracted as a parameter or oracle where the specification declares
it an external collaborator.  Each definition carries a comment naming
the source construct it embeds.
-/

/-! ## Character classes and lexicographic keys -/

/-- Whitespace as recognized by Python's `str.split()` (ASCII subset of
`str.isspace`; the repository's data is ASCII-spaced). -/
def isPySpace (c : Char) : Bool :=
  c = ' ' || c = '\t' || c = '\n' || c = '\r' || c = '\x0b' || c = '\x0c'

/-- Strict lexicographic order on character lists by code point, as Python
compares `str` values. -/
def strLtCh : List Char → List Char → Bool
  | [], [] => false
  | [], _ :: _ => true
  | _ :: _, [] => false
  | a :: as, b :: bs => if a < b then true else if b < a then false else strLtCh as bs

/-- Python `str` comparison `<` (code-point lexicographic). -/
def strLt (a b : String) : Bool := strLtCh a.data b.data

/-- Python tuple comparison `<` on an `(int, str)` pair: first component,
then the string as tie-break.  This is the order used by `list.sort` on
the keys produced by `parse_iso`. -/
def keyLt (x y : Int × String) : Bool :=
  x.1 < y.1 || (x.1 == y.1 && strLt x.2 y.2)

/-- Non-strict companion of `keyLt`; `keyLe x y` means `x` may be placed
before `y` by a stable sort (Python places `x` first unless `y < x`). -/
def keyLe (x y : Int × String) : Bool := !(keyLt y x)

/-! ## Markup stripping (`strip_html`, anonymize_messages.py lines 19-26)

`TAG_RE = re.compile(r"<[^>]+>")`; `strip_html` removes every tag span,
decodes HTML entities, and collapses whitespace runs. -/

/-- Remainder of the list after its first `'>'`, if any.  Models the greedy
regex engine finding the `>` that closes a `<[^>]+>` match. -/
def afterGt : List Char → Option (List Char)
  | [] => none
  | c :: rest => if c = '>' then some rest else afterGt rest

/-- Given the characters following a `'<'`, return the remainder after a
`<[^>]+>` match, or `none` when the regex does not match at this `'<'`
(immediately closed `<>` or no closing `>`). -/
def dropTag : List Char → Option (List Char)
  | [] => none
  | c :: rest => if c = '>' then none else afterGt rest

/-- `TAG_RE.sub("", content)`: remove every non-overlapping match of
`<[^>]+>`, scanning left to right. -/
def stripTags : List Char → List Char
  | [] => []
  | c :: rest =>
    if c = '<' then
      match h : dropTag rest with
      | some rest' => stripTags rest'
      | none => c :: stripTags rest
    else c :: stripTags rest
termination_by cs => cs.length
decreasing_by
  · have hAfter : ∀ (cs : List Char) r, afterGt cs = some r → r.length < cs.length := by
      intro cs
      induction cs with
      | nil => intro r hr; simp [afterGt] at hr
      | cons a as ih =>
        intro r hr
        simp only [afterGt] at hr
        split at hr
        · cases hr; simp
        · exact Nat.lt_trans (ih r hr) (Nat.lt_succ_self _)
    have hlt : rest'.length < rest.length := by
      cases rest with
      | nil => simp [dropTag] at h
      | cons a as =>
        simp only [dropTag] at h
        split at h
        · cases h
        · exact Nat.lt_trans (hAfter as rest' h) (Nat.lt_succ_self _)
    simp
    omega
  · simp
  · simp

/-- Does the text contain a `<[^>]+>` tag span (a match of `TAG_RE`)? -/
def containsTag : List Char → Bool
  | [] => false
  | c :: rest => (c = '<' && (dropTag rest).isSome) || containsTag rest

/-- Character allowed inside a named character reference: the class
`[^\t\n\x0c <&#;]` of CPython's `html._charref` pattern. -/
def nameCharOk (c : Char) : Bool :=
  !(c = '\t' || c = '\n' || c = '\x0c' || c = ' ' || c = '<' || c = '&' || c = '#' || c = ';')

/-- Value of a (hex or decimal) digit character. -/
def digitVal (c : Char) : Nat :=
  if '0' ≤ c ∧ c ≤ '9' then c.toNat - 48
  else if 'a' ≤ c ∧ c ≤ 'f' then c.toNat - 87
  else if 'A' ≤ c ∧ c ≤ 'F' then c.toNat - 55
  else 0

/-- Numeral value of a digit run in the given base. -/
def digitsVal (base : Nat) (ds : List Char) : Nat :=
  ds.foldl (fun a c => a * base + digitVal c) 0

def isHexDigitCh (c : Char) : Bool :=
  ('0' ≤ c && c ≤ '9') || ('a' ≤ c && c ≤ 'f') || ('A' ≤ c && c ≤ 'F')

/-- Replacement text for a numeric character reference.  Valid scalar
values decode to the corresponding character; others to U+FFFD (a
simplification of CPython's `_replace_charref`, whose cp1252 quirk table
the specification declares out of scope). -/
def numericRepl (n : Nat) : List Char :=
  if n.isValidChar then [Char.ofNat n] else ['\uFFFD']

/-- Representative subset of the `html5` named-entity table used by
`html.unescape` (the full table is a standard-library internal the
specification declares an external collaborator).  Keys with a trailing
semicolon correspond to terminated references. -/
def namedEntities : List (String × String) :=
  [("amp;", "&"), ("amp", "&"), ("lt;", "<"), ("lt", "<"),
   ("gt;", ">"), ("gt", ">"), ("quot;", "\""), ("quot", "\""),
   ("apos;", "\x27"), ("nbsp;", " "), ("nbsp", " ")]

/-- Try to match CPython's `html._charref` pattern
`#[0-9]+;?|#[xX][0-9a-fA-F]+;?|[^\t\n\x0c <&#;]{1,32};?` against the
characters following a `'&'`.  On success return the replacement text and
the number of characters consumed; unknown named references are kept
verbatim, exactly as `html.unescape` keeps them. -/
def charrefSplit (cs : List Char) : Option (List Char × Nat) :=
  match cs with
  | '#' :: rest =>
    match rest with
    | c :: rest2 =>
      if c = 'x' || c = 'X' then
        let hs := rest2.takeWhile isHexDigitCh
        if hs.isEmpty then none
        else
          let semi := (rest2.drop hs.length).head? == some ';'
          some (numericRepl (digitsVal 16 hs), 2 + hs.length + (if semi then 1 else 0))
      else
        let ds := rest.takeWhile Char.isDigit
        if ds.isEmpty then none
        else
          let semi := (rest.drop ds.length).head? == some ';'
          some (numericRepl (digitsVal 10 ds), 1 + ds.length + (if semi then 1 else 0))
    | [] => none
  | _ =>
    let nm := (cs.takeWhile nameCharOk).take 32
    if nm.isEmpty then none
    else
      let semi := (cs.drop nm.length).head? == some ';'
      let key : String := String.mk nm ++ (if semi then ";" else "")
      let repl :=
        match namedEntities.lookup key with
        | some r => r.data
        | none => '&' :: (nm ++ (if semi then [';'] else []))
      some (repl, nm.length + (if semi then 1 else 0))

/-- `html.unescape`: scan for character references and replace each
non-overlapping match, leaving all other text unchanged. -/
def unescape : List Char → List Char
  | [] => []
  | c :: rest =>
    if c = '&' then
      match charrefSplit rest with
      | some (repl, k) => repl ++ unescape (rest.drop k)
      | none => '&' :: unescape rest
    else c :: unescape rest
termination_by cs => cs.length
decreasing_by
  · have h1 : (rest.drop k).length ≤ rest.length := by simp [List.length_drop]
    have h2 : (c :: rest).length = rest.length + 1 := rfl
    omega
  · simp
  · simp

/-- Does the text contain a character reference (an occurrence of `'&'`
followed by a `_charref` match)? -/
def containsCharref : List Char → Bool
  | [] => false
  | c :: rest => (c = '&' && (charrefSplit rest).isSome) || containsCharref rest

/-- Python `str.split()`: the maximal whitespace-free words of the text,
in order. -/
def words : List Char → List (List Char)
  | [] => []
  | c :: rest =>
    if isPySpace c then words rest
    else (c :: rest.takeWhile (fun d => !isPySpace d)) :: words (rest.dropWhile (fun d => !isPySpace d))
termination_by cs => cs.length
decreasing_by
  · simp
  · have : (rest.dropWhile (fun d => !isPySpace d)).length ≤ rest.length :=
      (List.dropWhile_sublist _).length_le
    simp
    omega

/-- Python `" ".join(ws)`: interleave single spaces between words. -/
def joinSp : List (List Char) → List Char
  | [] => []
  | [w] => w
  | w :: ws => w ++ ' ' :: joinSp ws

/-- Is the text already whitespace-collapsed: no leading or trailing
whitespace, no two adjacent whitespace characters, and every whitespace
character a plain space? -/
def noDoubleSpace : List Char → Bool
  | a :: b :: rest => !(isPySpace a && isPySpace b) && noDoubleSpace (b :: rest)
  | _ => true

def wsNormalized (cs : List Char) : Bool :=
  (match cs.head? with | some c => !isPySpace c | none => true) &&
  (match cs.getLast? with | some c => !isPySpace c | none => true) &&
  noDoubleSpace cs &&
  cs.all (fun c => !isPySpace c || c = ' ')

/-- `strip_html` (anonymize_messages.py lines 22-26): remove tag spans,
decode entities, collapse whitespace runs to single spaces and trim. -/
def strip_html (s : String) : String :=
  String.mk (joinSp (words (unescape (stripTags s.data))))

/-! ## Timestamp parsing (`parse_iso`, anonymize_messages.py lines 29-35)

`parse_iso` calls `datetime.fromisoformat(dt.replace("Z", "+00:00"))` and
truncates `.timestamp()` to an `int`.  The ISO-8601 grammar below models
the format accepted by `datetime.fromisoformat` (the `YYYY-MM-DD`,
optional separator plus `HH[:MM[:SS[.fff[fff]]]]`, optional
`±HH:MM[:SS[.ffffff]]` offset shape emitted by `datetime.isoformat`),
with a naive datetime's implicit local timezone modelled as UTC and the
floating-point `timestamp()` modelled exactly. -/

/-- Exactly two decimal digits, returning their value and the rest. -/
def parse2 : List Char → Option (Nat × List Char)
  | a :: b :: rest =>
    if a.isDigit && b.isDigit then some ((a.toNat - 48) * 10 + (b.toNat - 48), rest)
    else none
  | _ => none

/-- Exactly four decimal digits, returning their value and the rest. -/
def parse4 : List Char → Option (Nat × List Char)
  | a :: b :: c :: d :: rest =>
    if a.isDigit && b.isDigit && c.isDigit && d.isDigit then
      some ((a.toNat - 48) * 1000 + (b.toNat - 48) * 100 + (c.toNat - 48) * 10 + (d.toNat - 48), rest)
    else none
  | _ => none

def isLeapYear (y : Nat) : Bool :=
  y % 4 = 0 && (y % 100 ≠ 0 || y % 400 = 0)

def daysInMonth (y m : Nat) : Nat :=
  if m = 2 then (if isLeapYear y then 29 else 28)
  else if m = 4 || m = 6 || m = 9 || m = 11 then 30 else 31

/-- Days from 1970-01-01 to the given proleptic-Gregorian civil date
(the date arithmetic underlying `datetime.timestamp`). -/
def daysFromCivil (y m d : Int) : Int :=
  let y2 := if m ≤ 2 then y - 1 else y
  let era := y2 / 400
  let yoe := y2 - era * 400
  let mp := (m + 9) % 12
  let doy := (153 * mp + 2) / 5 + d - 1
  let doe := yoe * 365 + yoe / 4 - yoe / 100 + doy
  era * 146097 + doe - 719468

/-- Parse `HH[:MM[:SS[.fff[fff]]]]` (CPython `_parse_hh_mm_ss_ff`),
returning hour, minute, second and microseconds; the whole input must be
consumed and the components must form a valid time of day. -/
def parseHMSF (cs : List Char) : Option (Nat × Nat × Nat × Nat) :=
  match parse2 cs with
  | none => none
  | some (hh, r1) =>
    if 24 ≤ hh then none else
    match r1 with
    | [] => some (hh, 0, 0, 0)
    | ':' :: r2 =>
      match parse2 r2 with
      | none => none
      | some (mm, r3) =>
        if 60 ≤ mm then none else
        match r3 with
        | [] => some (hh, mm, 0, 0)
        | ':' :: r4 =>
          match parse2 r4 with
          | none => none
          | some (ss, r5) =>
            if 60 ≤ ss then none else
            match r5 with
            | [] => some (hh, mm, ss, 0)
            | '.' :: fr =>
              if fr.length = 3 && fr.all Char.isDigit then
                some (hh, mm, ss, digitsVal 10 fr * 1000)
              else if fr.length = 6 && fr.all Char.isDigit then
                some (hh, mm, ss, digitsVal 10 fr)
              else none
            | _ => none
        | _ => none
    | _ => none

/-- Split a list at the first occurrence of `c` (both halves exclude it). -/
def splitAtFirst (c : Char) : List Char → Option (List Char × List Char)
  | [] => none
  | d :: rest =>
    if d = c then some ([], rest)
    else (splitAtFirst c rest).map (fun p => (d :: p.1, p.2))

/-- Parse the time-of-day part of an ISO string together with an optional
UTC offset in microseconds.  CPython locates the offset at the first `-`,
or failing that the first `+`, and requires the offset text to have
length 5, 8 or 15 (`HH:MM`, `HH:MM:SS`, `HH:MM:SS.ffffff`). -/
def timeAndOffset (tstr : List Char) : Option (Nat × Nat × Nat × Nat × Option Int) :=
  let go : List Char → List Char → Bool → Option (Nat × Nat × Nat × Nat × Option Int) :=
    fun timePart tzPart neg =>
      if tzPart.length = 5 || tzPart.length = 8 || tzPart.length = 15 then
        match parseHMSF tzPart, parseHMSF timePart with
        | some (th, tm, ts, tf), some (h, mi, s, f) =>
          let mag : Int := ((th * 3600 + tm * 60 + ts) * 1000000 + tf : Nat)
          some (h, mi, s, f, some (if neg then -mag else mag))
        | _, _ => none
      else none
  match splitAtFirst '-' tstr with
  | some (timePart, tzPart) => go timePart tzPart true
  | none =>
    match splitAtFirst '+' tstr with
    | some (timePart, tzPart) => go timePart tzPart false
    | none =>
      match parseHMSF tstr with
      | some (h, mi, s, f) => some (h, mi, s, f, none)
      | none => none

/-- Epoch seconds as Python computes `int(dt.timestamp())`: exact rational
seconds truncated toward zero (`Int.tdiv`). -/
def epochOf (y m d h mi s f : Nat) (offMicro : Option Int) : Int :=
  let base : Int := daysFromCivil y m d * 86400 + (h * 3600 + mi * 60 + s : Nat)
  Int.tdiv (base * 1000000 + (f : Int) - offMicro.getD 0) 1000000

/-- Model of `int(datetime.fromisoformat(s).timestamp())`: `none` when
`fromisoformat` raises `ValueError`, otherwise the truncated epoch
seconds.  The date part is `YYYY-MM-DD` with calendar validation
(`datetime.MINYEAR = 1`); any single character may separate date and
time. -/
def fromisoformatEpochChars (cs : List Char) : Option Int :=
  match parse4 cs with
  | none => none
  | some (y, r1) =>
    if y = 0 then none else
    match r1 with
    | '-' :: r2 =>
      match parse2 r2 with
      | none => none
      | some (m, r3) =>
        if m < 1 || 12 < m then none else
        match r3 with
        | '-' :: r4 =>
          match parse2 r4 with
          | none => none
          | some (d, r5) =>
            if d < 1 || daysInMonth y m < d then none else
            match r5 with
            | [] => some (epochOf y m d 0 0 0 0 none)
            | _sep :: tstr =>
              match timeAndOffset tstr with
              | some (h, mi, s, f, off) => some (epochOf y m d h mi s f off)
              | none => none
        | _ => none
    | _ => none

def fromisoformatEpoch (s : String) : Option Int :=
  fromisoformatEpochChars s.data

/-- Python `str.replace(old, new)`: replace every non-overlapping
occurrence of `old`, scanning left to right (an empty `old`, which Python
treats as matching between every character, does not occur in this
program and is modelled as no replacement).  The extra `Nat` is
structural-recursion fuel, always called with the text's length, which a
scan can never exceed. -/
def pyReplaceGo (old new : List Char) : Nat → List Char → List Char
  | 0, cs => cs
  | _ + 1, [] => []
  | fuel + 1, c :: rest =>
    if !old.isEmpty && old.isPrefixOf (c :: rest) then
      new ++ pyReplaceGo old new fuel ((c :: rest).drop old.length)
    else c :: pyReplaceGo old new fuel rest

def pyReplace (old new cs : List Char) : List Char :=
  pyReplaceGo old new cs.length cs

/-- `s.replace(old, new)` on `String`s. -/
def pyStrReplace (s old new : String) : String :=
  String.mk (pyReplace old.data new.data s.data)

/-- `parse_iso` (anonymize_messages.py lines 29-35): a falsy (`None` or
empty) timestamp yields `(0, "")`; a string that `fromisoformat` rejects
(after `Z` is rewritten to `+00:00`) yields `(0, dt)`; a valid string
yields `(epoch, dt)` with the original string kept as tie-break. -/
def parse_iso (dt : Option String) : Int × String :=
  match dt with
  | none => (0, "")
  | some s =>
    if s = "" then (0, "")
    else
      match fromisoformatEpoch (pyStrReplace s "Z" "+00:00") with
      | some e => (e, s)
      | none => (0, s)

/-! ## Thread assembler (anonymize_messages.py `main`, lines 38-97)

The input file is a JSON object whose `messages` field is a list of
records with the optional fields named in spec §6; the embedding types
each record by that contract (`conversationIdentity.conversationId`,
`createdDateTime` and `body.content` are strings when present, with the
code's `isinstance` guards for a missing/ill-shaped `conversationIdentity`
or `body` collapsing to the `none` case).  Author-identity fields are
carried so that their non-use is provable. -/

structure RawMessage where
  /-- `id` — read into the `by_id` map (lines 51-55), which no later code uses. -/
  id : Option String
  /-- `conversationIdentity.conversationId` (lines 61-62). -/
  conversationId : Option String
  /-- `createdDateTime` (line 75). -/
  createdDateTime : Option String
  /-- `body.content` (lines 67-70); `none` covers a missing or non-dict
  `body`, a missing `content` key, and an explicit `null`. -/
  content : Option String
  /-- Author display name (under `from` in a Teams export) — never read. -/
  authorDisplayName : Option String
  /-- Author id — never read. -/
  authorId : Option String
  /-- Author email — never read. -/
  authorEmail : Option String
deriving DecidableEq, Repr

/-- One entry of a thread's message list before the final field pop: the
dict built at lines 72-76, with `_sort` still present. -/
structure NormalizedMessage where
  /-- The `user` value `{"displayName": "XXXX"}` — only the placeholder string varies the shape. -/
  userDisplayName : String
  /-- The `message` value. -/
  message : String
  /-- The working `_sort` value: the raw `createdDateTime`. -/
  sortRaw : Option String
deriving DecidableEq, Repr

/-- Lines 72-76: build the anonymized message dict.  The author is the
fixed placeholder; the body is passed raw in `--keep-html` mode and
stripped otherwise; a `None` content becomes the empty string first. -/
def normalizeMessage (keepHtml : Bool) (m : RawMessage) : NormalizedMessage :=
  let content := m.content.getD ""
  { userDisplayName := "XXXX",
    message := if keepHtml then content else strip_html content,
    sortRaw := m.createdDateTime }

/-- `threads.setdefault(conv_id, []); threads[conv_id].append(msg)` on an
insertion-ordered dict modelled as an association list with unique keys:
append the message to the existing bucket, or add a new bucket at the
end. -/
def appendAt : List (String × List NormalizedMessage) → String → NormalizedMessage →
    List (String × List NormalizedMessage)
  | [], c, msg => [(c, [msg])]
  | (k, ms) :: rest, c, msg =>
    if k = c then (k, ms ++ [msg]) :: rest else (k, ms) :: appendAt rest c msg

/-- Loop body of lines 59-77: a falsy (`None` or empty) conversation id
skips the message; otherwise the normalized message is appended to its
conversation's bucket. -/
def addMessage (keepHtml : Bool) (buckets : List (String × List NormalizedMessage))
    (m : RawMessage) : List (String × List NormalizedMessage) :=
  match m.conversationId with
  | none => buckets
  | some c => if c = "" then buckets else appendAt buckets c (normalizeMessage keepHtml m)

/-- The grouping pass over all messages (lines 59-77), in insertion order. -/
def buildThreads (keepHtml : Bool) (msgs : List RawMessage) :
    List (String × List NormalizedMessage) :=
  msgs.foldl (addMessage keepHtml) []

/-- Sort key of a message: `parse_iso(x.get("_sort"))` (line 82). -/
def msgKey (m : NormalizedMessage) : Int × String := parse_iso m.sortRaw

/-- `msgs.sort(key=lambda x: parse_iso(x.get("_sort")))` (line 82):
Python's stable ascending sort, embedded as a stable merge sort under the
total preorder `keyLe` on keys. -/
def sortMsgs (ms : List NormalizedMessage) : List NormalizedMessage :=
  ms.mergeSort (fun a b => keyLe (msgKey a) (msgKey b))

/-- One entry of `thread_list` (line 84), with `_thread_sort` still present. -/
structure AssembledThread where
  thread_id : String
  messages : List NormalizedMessage
  /-- `msgs[0].get("_sort") if msgs else None`. -/
  threadSort : Option String
deriving DecidableEq, Repr

/-- Lines 80-84: sort each bucket and record the first message's raw
timestamp as the thread's sort input. -/
def mkThreadList (buckets : List (String × List NormalizedMessage)) : List AssembledThread :=
  buckets.map fun p =>
    { thread_id := p.1,
      messages := sortMsgs p.2,
      threadSort := match (sortMsgs p.2).head? with | some m => m.sortRaw | none => none }

/-- Sort key of a thread (line 87): `parse_iso(t.get("_thread_sort")) if
t["messages"] else (0, "")`. -/
def threadKey (t : AssembledThread) : Int × String :=
  if t.messages.isEmpty then (0, "") else parse_iso t.threadSort

/-- Line 87: stable ascending sort of the thread list by first-message time. -/
def sortThreads (ts : List AssembledThread) : List AssembledThread :=
  ts.mergeSort (fun a b => keyLe (threadKey a) (threadKey b))

/-- Lines 79-87 composed: the assembled, fully ordered thread list with
working sort fields still attached. -/
def assembleSorted (keepHtml : Bool) (msgs : List RawMessage) : List AssembledThread :=
  sortThreads (mkThreadList (buildThreads keepHtml msgs))

/-- A message as written to the output file, after `msg.pop("_sort", None)`
(lines 88-90). -/
structure OutMessage where
  userDisplayName : String
  message : String
deriving DecidableEq, Repr

/-- A thread as written to the output file, after `t.pop("_thread_sort", None)`. -/
structure OutThread where
  thread_id : String
  messages : List OutMessage
deriving DecidableEq, Repr

def forgetSort (m : NormalizedMessage) : OutMessage :=
  { userDisplayName := m.userDisplayName, message := m.message }

def forgetThreadSort (t : AssembledThread) : OutThread :=
  { thread_id := t.thread_id, messages := t.messages.map forgetSort }

/-- The full assembler (lines 59-93): the `threads` value of the output
JSON object as a function of the input's `messages` list. -/
def assemble (keepHtml : Bool) (msgs : List RawMessage) : List OutThread :=
  (assembleSorted keepHtml msgs).map forgetThreadSort

/-- The normalized shape a qualifying input message takes in the output
file (normalization followed by the `_sort` pop). -/
def outMessage (keepHtml : Bool) (m : RawMessage) : OutMessage :=
  forgetSort (normalizeMessage keepHtml m)

/-! ## Thread classifier (classify_threads.py)

The transport (`call_openai`, lines 20-39) and the JSON decoding of the
reply body are external collaborators (spec §1, §6): each attempt of the
retry loop is driven by an oracle giving either the parsed response
object returned by `call_openai` or the exception it raised, and the
`json.loads` applied to the extracted message content is a parameter.
Everything from `extract_json_content` down is embedded. -/

/-- A JSON value as produced by `json.loads`. -/
inductive JVal where
  | null : JVal
  | bool : Bool → JVal
  | num : Int → JVal
  | str : String → JVal
  | arr : List JVal → JVal
  | obj : List (String × JVal) → JVal

/-- Python truthiness of a JSON value (`if parsed:`): `None`, `False`,
`0`, `""`, `[]` and `{}` are falsy. -/
def JVal.truthy : JVal → Bool
  | .null => false
  | .bool b => b
  | .num n => n != 0
  | .str s => s != ""
  | .arr xs => !xs.isEmpty
  | .obj fs => !fs.isEmpty

/-- Python `d.get(key, default)` on a JSON value; `none` models the
`AttributeError` raised when the value is not a dict. -/
def JVal.get? (v : JVal) (k : String) (dflt : JVal) : Option JVal :=
  match v with
  | .obj fs => some ((fs.lookup k).getD dflt)
  | _ => none

/-- `extract_json_content` (lines 42-54), with the `json.loads` of the
message content abstracted as `loads` (`none` = `JSONDecodeError`, the
only exception the function catches).  `some v` is the value the function
returns; `none` is an uncaught exception that kills the process: the
`.get` calls raise `AttributeError` when their receiver is not a dict
(`resp.get` on a non-dict body, `choices[0].get`/`message.get` on a
non-dict), a truthy non-list `choices` crashes at the `choices[0]`
subscript (`TypeError`/`KeyError`, or the subsequent `.get` on the
character of a string), and `json.loads` raises `TypeError` on a truthy
non-string `content`.  The `if not choices` / `if not content` guards
return `{}` for every falsy value first, exactly as the source does. -/
def extract_json_content (loads : String → Option JVal) (resp : JVal) : Option JVal :=
  match resp.get? "choices" (.arr []) with
  | none => none
  | some choices =>
    if choices.truthy = false then some (.obj [])
    else
      match choices with
      | .arr (c0 :: _) =>
        match c0.get? "message" (.obj []) with
        | none => none
        | some message =>
          match message.get? "content" (.str "") with
          | none => none
          | some content =>
            if content.truthy = false then some (.obj [])
            else
              match content with
              | .str s =>
                match loads s with
                | some v => some v
                | none => some (.obj [])
              | _ => none
      | _ => none

/-- Outcome of one `call_openai` invocation: the parsed response body, or
the message of the `HTTPError`/`URLError`/`JSONDecodeError` it raised. -/
inductive CallOutcome where
  | ok : JVal → CallOutcome
  | exn : String → CallOutcome

/-- Final state of the per-thread retry loop: last `parsed`, last `error`,
and the number of service calls made. -/
structure LoopResult where
  parsed : JVal
  error : Option String
  calls : Nat

/-- The error string assigned when an attempt yields a falsy extraction
(line 108). -/
def emptyRespMsg : String := "Empty or invalid JSON response"

/-- The retry loop of lines 99-112, driven by the per-attempt oracle
`svc`: while `attempt <= max_retries`, call the service; on a truthy
extraction break, on a falsy one record `emptyRespMsg`, on an exception
record its message; `parsed` keeps its previous value across exceptions.
An uncaught exception inside `extract_json_content`
(`AttributeError`/`TypeError` are not in the `except` tuple at line 109)
propagates and kills the process: the loop yields `none`.  `fuel` is the
number of loop iterations still allowed (`max_retries + 1 - attempt`),
and `attempt` the index consulted in the oracle. -/
def runLoopAux (svc : Nat → CallOutcome) (loads : String → Option JVal) :
    Nat → Nat → JVal → Option String → Option LoopResult
  | 0, _, parsed, error => some { parsed := parsed, error := error, calls := 0 }
  | fuel + 1, attempt, parsed, error =>
    match svc attempt with
    | .ok resp =>
      match extract_json_content loads resp with
      | none => none
      | some v =>
        if v.truthy then some { parsed := v, error := error, calls := 1 }
        else
          (runLoopAux svc loads fuel (attempt + 1) v (some emptyRespMsg)).map
            (fun r => { r with calls := r.calls + 1 })
    | .exn e =>
      (runLoopAux svc loads fuel (attempt + 1) parsed (some e)).map
        (fun r => { r with calls := r.calls + 1 })

/-- The whole loop for one thread: `attempt = 0`, `parsed = {}`,
`error = None`, and `max_retries + 1` iterations allowed (the retry count
is a natural number per spec §4.2); `none` when an attempt crashed the
process. -/
def runLoop (svc : Nat → CallOutcome) (loads : String → Option JVal) (maxRetries : Nat) :
    Option LoopResult :=
  runLoopAux svc loads (maxRetries + 1) 0 (.obj []) none

/-- One classification record (lines 114-121). -/
structure ClassificationResult where
  thread_id : Option String
  incident_number : JVal
  root_cause : JVal
  type : JVal
  severity : JVal
  error : Option String

/-- Lines 114-121: build the result dict from the loop's final state.
The four `parsed.get(..., "")` calls raise `AttributeError` unless the
final `parsed` is a dict (`none` models that crash); `error` is nulled
when `parsed` is truthy. -/
def buildResult (tid : Option String) (lr : LoopResult) : Option ClassificationResult :=
  match lr.parsed with
  | .obj fs =>
    some { thread_id := tid,
           incident_number := (fs.lookup "Incident Number").getD (.str ""),
           root_cause := (fs.lookup "Root Cause").getD (.str ""),
           type := (fs.lookup "Type").getD (.str ""),
           severity := (fs.lookup "Severity").getD (.str ""),
           error := if (JVal.obj fs).truthy then none else lr.error }
  | _ => none

/-- A thread as read from the classifier's input file (lines 86-87):
`thread.get("thread_id")` and `thread.get("messages", [])`. -/
structure InThread where
  thread_id : Option String
  messages : JVal

/-- Classify one thread: run the retry loop and build its result (the
thread's content only reaches the service through the oracle); `none`
when the loop or the result construction crashes. -/
def classifyOne (svc : Nat → CallOutcome) (loads : String → Option JVal) (maxRetries : Nat)
    (t : InThread) : Option ClassificationResult :=
  (runLoop svc loads maxRetries).bind (buildResult t.thread_id)

/-- The per-thread loop of lines 85-131 as the sequence of output-file
writes: after each thread completes, the full accumulated `results` list
is rewritten (lines 124-126), so the k-th element of this trace is the
file's content after k+1 threads.  `svc idx` is the attempt oracle for the
thread at position `idx`; a thread whose result construction crashes ends
the trace. -/
def runThreadsAux (svc : Nat → Nat → CallOutcome) (loads : String → Option JVal)
    (maxRetries : Nat) :
    List InThread → Nat → List ClassificationResult → List (List ClassificationResult)
  | [], _, _ => []
  | t :: ts, idx, acc =>
    match classifyOne (svc idx) loads maxRetries t with
    | some r => (acc ++ [r]) :: runThreadsAux svc loads maxRetries ts (idx + 1) (acc ++ [r])
    | none => []

/-- The trace of output-file contents over a whole run (`results = []`
initially, threads processed in input order). -/
def runWrites (svc : Nat → Nat → CallOutcome) (loads : String → Option JVal)
    (maxRetries : Nat) (threads : List InThread) : List (List ClassificationResult) :=
  runThreadsAux svc loads maxRetries threads 0 []

/-- The results of the first threads of the list, classified in order
(`none` if any of them crashes); `idx` is the oracle index of the first
element. -/
def classifyList (svc : Nat → Nat → CallOutcome) (loads : String → Option JVal)
    (maxRetries : Nat) : List InThread → Nat → Option (List ClassificationResult)
  | [], _ => some []
  | t :: ts, idx =>
    match classifyOne (svc idx) loads maxRetries t with
    | some r => (classifyList svc loads maxRetries ts (idx + 1)).map (r :: ·)
    | none => none

/-! ## Theorems

First the order-theoretic facts about the sort keys, then the behaviour
of each pipeline stage, then the claim theorems. -/


theorem strLtCh_asymm : ∀ as bs, strLtCh as bs = true → strLtCh bs as = false := by
  intro as
  induction as with
  | nil => intro bs h; cases bs <;> simp_all [strLtCh]
  | cons a as ih =>
    intro bs h
    cases bs with
    | nil => simp [strLtCh] at h
    | cons b bs =>
      simp only [strLtCh] at h ⊢
      by_cases hab : a < b
      · have hba : ¬ b < a := lt_asymm hab
        simp [hab, hba]
      · by_cases hba : b < a
        · simp [hab, hba] at h
        · simp only [hab, hba, if_false] at h
          simp only [if_neg hab, if_neg hba]
          exact ih bs h

theorem strLtCh_conn : ∀ as bs, strLtCh as bs = false → strLtCh bs as = false → as = bs := by
  intro as
  induction as with
  | nil => intro bs h1 h2; cases bs <;> simp_all [strLtCh]
  | cons a as ih =>
    intro bs h1 h2
    cases bs with
    | nil => simp [strLtCh] at h2
    | cons b bs =>
      simp only [strLtCh] at h1 h2
      by_cases hab : a < b
      · simp [hab] at h1
      · by_cases hba : b < a
        · simp [hba] at h2
        · have hEq : a = b := le_antisymm (le_of_not_lt hba) (le_of_not_lt hab)
          subst hEq
          simp only [lt_irrefl, if_false] at h1 h2
          rw [ih bs h1 h2]

theorem strLtCh_trans :
    ∀ as bs cs, strLtCh as bs = true → strLtCh bs cs = true → strLtCh as cs = true := by
  intro as
  induction as with
  | nil =>
    intro bs cs h1 h2
    cases bs with
    | nil => simp [strLtCh] at h1
    | cons b bs =>
      cases cs with
      | nil => simp [strLtCh] at h2
      | cons c cs => simp [strLtCh]
  | cons a as ih =>
    intro bs cs h1 h2
    cases bs with
    | nil => simp [strLtCh] at h1
    | cons b bs =>
      cases cs with
      | nil => simp [strLtCh] at h2
      | cons c cs =>
        simp only [strLtCh] at h1 h2 ⊢
        by_cases hab : a < b
        · by_cases hbc : b < c
          · simp [lt_trans hab hbc]
          · by_cases hcb : c < b
            · simp [hbc, hcb] at h2
            · have hEq : b = c := le_antisymm (le_of_not_lt hcb) (le_of_not_lt hbc)
              subst hEq
              simp [hab]
        · by_cases hba : b < a
          · simp [hab, hba] at h1
          · have hEq : a = b := le_antisymm (le_of_not_lt hba) (le_of_not_lt hab)
            subst hEq
            simp only [lt_irrefl, if_false] at h1
            by_cases hac : a < c
            · simp [hac]
            · by_cases hca : c < a
              · simp [hac, hca] at h2
              · simp only [hac, hca, if_false] at h2 ⊢
                exact ih bs cs h1 h2

theorem strLtCh_irrefl : ∀ as, strLtCh as as = false := by
  intro as
  induction as with
  | nil => rfl
  | cons a as ih => simp [strLtCh, ih]

theorem keyLt_iff (x y : Int × String) :
    keyLt x y = true ↔ (x.1 < y.1 ∨ (x.1 = y.1 ∧ strLtCh x.2.data y.2.data = true)) := by
  simp [keyLt, strLt]

theorem keyLt_irrefl (x : Int × String) : keyLt x x = false := by
  rw [Bool.eq_false_iff]
  intro h
  rw [keyLt_iff] at h
  rcases h with h | ⟨_, h⟩
  · omega
  · rw [strLtCh_irrefl] at h
    exact Bool.noConfusion h

theorem keyLt_asymm (x y : Int × String) (h : keyLt x y = true) : keyLt y x = false := by
  rw [Bool.eq_false_iff]
  intro h2
  rw [keyLt_iff] at h h2
  rcases h with h | ⟨hEq, hs⟩ <;> rcases h2 with h2 | ⟨h2e, h2s⟩
  · omega
  · omega
  · omega
  · rw [strLtCh_asymm _ _ hs] at h2s
    exact Bool.noConfusion h2s

theorem keyLt_conn (x y : Int × String) (h1 : keyLt x y = false) (h2 : keyLt y x = false) :
    x = y := by
  have hx : ¬ (x.1 < y.1 ∨ (x.1 = y.1 ∧ strLtCh x.2.data y.2.data = true)) := by
    rw [← keyLt_iff, h1]; simp
  have hy : ¬ (y.1 < x.1 ∨ (y.1 = x.1 ∧ strLtCh y.2.data x.2.data = true)) := by
    rw [← keyLt_iff, h2]; simp
  push_neg at hx hy
  obtain ⟨hx1, hx2⟩ := hx
  obtain ⟨hy1, hy2⟩ := hy
  have hEq : x.1 = y.1 := by omega
  have hsx : strLtCh x.2.data y.2.data = false := by
    rw [Bool.eq_false_iff]; exact hx2 hEq
  have hsy : strLtCh y.2.data x.2.data = false := by
    rw [Bool.eq_false_iff]; exact hy2 hEq.symm
  have hd := strLtCh_conn _ _ hsx hsy
  have hs : x.2 = y.2 := by
    obtain ⟨xf, xs⟩ := x
    obtain ⟨yf, ys⟩ := y
    obtain ⟨xd⟩ := xs
    obtain ⟨yd⟩ := ys
    simpa using congrArg String.mk hd
  exact Prod.ext hEq hs

theorem keyLt_trans (x y z : Int × String)
    (h1 : keyLt x y = true) (h2 : keyLt y z = true) : keyLt x z = true := by
  rw [keyLt_iff] at h1 h2 ⊢
  rcases h1 with h1 | ⟨h1e, h1s⟩
  · rcases h2 with h2 | ⟨h2e, h2s⟩
    · exact Or.inl (by omega)
    · exact Or.inl (by omega)
  · rcases h2 with h2 | ⟨h2e, h2s⟩
    · exact Or.inl (by omega)
    · exact Or.inr ⟨by omega, strLtCh_trans _ _ _ h1s h2s⟩

theorem keyLe_total (x y : Int × String) : (keyLe x y || keyLe y x) = true := by
  simp only [keyLe, Bool.or_eq_true, Bool.not_eq_true']
  cases h : keyLt y x with
  | false => exact Or.inl rfl
  | true => exact Or.inr (keyLt_asymm y x h)

theorem keyLe_trans (x y z : Int × String)
    (h1 : keyLe x y = true) (h2 : keyLe y z = true) : keyLe x z = true := by
  simp only [keyLe, Bool.not_eq_true'] at h1 h2 ⊢
  cases hzx : keyLt z x with
  | false => rfl
  | true =>
    exfalso
    cases hxy : keyLt x y with
    | true =>
      rw [keyLt_trans z x y hzx hxy] at h2
      exact Bool.noConfusion h2
    | false =>
      have hEq := keyLt_conn x y hxy h1
      subst hEq
      rw [hzx] at h2
      exact Bool.noConfusion h2

/-! ### Grouping: the `setdefault`/`append` association list -/

theorem appendAt_spec (c : String) (msg : NormalizedMessage) :
    ∀ acc : List (String × List NormalizedMessage),
      (acc.map Prod.fst).Nodup →
      ((appendAt acc c msg).map Prod.fst).Nodup ∧
      (∀ k ms, (k, ms) ∈ appendAt acc c msg →
        (k ≠ c ∧ (k, ms) ∈ acc) ∨
        (k = c ∧ ∃ ms0, ms = ms0 ++ [msg] ∧
          ((c, ms0) ∈ acc ∨ (ms0 = [] ∧ c ∉ acc.map Prod.fst)))) ∧
      (∀ k, k ∈ (appendAt acc c msg).map Prod.fst ↔ (k ∈ acc.map Prod.fst ∨ k = c)) := by
  intro acc
  induction acc with
  | nil =>
    intro _
    refine ⟨?_, ?_, ?_⟩
    · show ((appendAt [] c msg).map Prod.fst).Nodup
      rw [appendAt]
      simp
    · intro k ms hmem
      rw [appendAt] at hmem
      simp only [List.mem_singleton, Prod.mk.injEq] at hmem
      obtain ⟨hk, hms⟩ := hmem
      exact Or.inr ⟨hk, [], by simp [hms.symm], Or.inr ⟨rfl, by simp⟩⟩
    · intro k
      rw [appendAt]
      simp
  | cons hd rest ih =>
    intro hN
    obtain ⟨k0, ms0⟩ := hd
    simp only [List.map_cons, List.nodup_cons] at hN
    obtain ⟨hk0, hNrest⟩ := hN
    rw [appendAt]
    by_cases hc : k0 = c
    · subst hc
      rw [if_pos rfl]
      refine ⟨?_, ?_, ?_⟩
      · simp only [List.map_cons, List.nodup_cons]
        exact ⟨hk0, hNrest⟩
      · intro k ms hmem
        simp only [List.mem_cons, Prod.mk.injEq] at hmem
        rcases hmem with ⟨h1, h2⟩ | hmem
        · subst h1
          exact Or.inr ⟨rfl, ms0, h2, Or.inl (by simp)⟩
        · have hkne : k ≠ k0 := by
            intro hEq
            subst hEq
            exact hk0 (List.mem_map.mpr ⟨(k, ms), hmem, rfl⟩)
          exact Or.inl ⟨hkne, List.mem_cons_of_mem _ hmem⟩
      · intro k
        simp only [List.map_cons, List.mem_cons]
        tauto
    · rw [if_neg hc]
      obtain ⟨ihN, ihMem, ihKeys⟩ := ih hNrest
      refine ⟨?_, ?_, ?_⟩
      · simp only [List.map_cons, List.nodup_cons]
        refine ⟨?_, ihN⟩
        intro hbad
        rcases (ihKeys k0).mp hbad with h | h
        · exact hk0 h
        · exact hc h
      · intro k ms hmem
        simp only [List.mem_cons, Prod.mk.injEq] at hmem
        rcases hmem with ⟨h1, h2⟩ | hmem
        · subst h1
          exact Or.inl ⟨hc, by simp [h2]⟩
        · rcases ihMem k ms hmem with ⟨hne, hin⟩ | ⟨hEq, ms1, hms, hrest⟩
          · exact Or.inl ⟨hne, List.mem_cons_of_mem _ hin⟩
          · subst hEq
            refine Or.inr ⟨rfl, ms1, hms, ?_⟩
            rcases hrest with h | ⟨h1, h2⟩
            · exact Or.inl (List.mem_cons_of_mem _ h)
            · refine Or.inr ⟨h1, ?_⟩
              simp only [List.map_cons, List.mem_cons]
              rintro (h | h)
              · exact hc h.symm
              · exact h2 h
      · intro k
        simp only [List.map_cons, List.mem_cons, ihKeys k]
        tauto

theorem buildThreads_fold_spec (keepHtml : Bool) :
    ∀ (msgs : List RawMessage) (acc : List (String × List NormalizedMessage))
      (pre : List RawMessage),
      (acc.map Prod.fst).Nodup →
      (∀ k ms, (k, ms) ∈ acc → k ≠ "" ∧ ms ≠ [] ∧
        ms = (pre.filter (fun m => m.conversationId = some k)).map (normalizeMessage keepHtml)) →
      (∀ k, k ≠ "" → pre.filter (fun m => m.conversationId = some k) ≠ [] →
        k ∈ acc.map Prod.fst) →
      (((msgs.foldl (addMessage keepHtml) acc).map Prod.fst).Nodup ∧
       (∀ k ms, (k, ms) ∈ msgs.foldl (addMessage keepHtml) acc → k ≠ "" ∧ ms ≠ [] ∧
         ms = ((pre ++ msgs).filter (fun m => m.conversationId = some k)).map (normalizeMessage keepHtml)) ∧
       (∀ k, k ≠ "" → (pre ++ msgs).filter (fun m => m.conversationId = some k) ≠ [] →
         k ∈ (msgs.foldl (addMessage keepHtml) acc).map Prod.fst)) := by
  intro msgs
  induction msgs with
  | nil =>
    intro acc pre h1 h2 h3
    rw [List.foldl_nil, List.append_nil]
    exact ⟨h1, h2, h3⟩
  | cons m rest ih =>
    intro acc pre h1 h2 h3
    have hassoc : pre ++ m :: rest = (pre ++ [m]) ++ rest := by simp
    rw [List.foldl_cons, hassoc]
    rcases hconv : m.conversationId with _ | c
    · -- no conversation id: message skipped, filters unchanged
      have hstep : addMessage keepHtml acc m = acc := by
        rw [addMessage, hconv]
      have hfilter : ∀ k : String,
          (pre ++ [m]).filter (fun m' => m'.conversationId = some k) =
          pre.filter (fun m' => m'.conversationId = some k) := by
        intro k
        rw [List.filter_append]
        simp [List.filter, hconv]
      rw [hstep]
      refine ih acc (pre ++ [m]) h1 ?_ ?_
      · intro k ms hmem
        rw [hfilter k]
        exact h2 k ms hmem
      · intro k hk hne
        rw [hfilter k] at hne
        exact h3 k hk hne
    · by_cases hcE : c = ""
      · -- empty conversation id: also skipped
        subst hcE
        have hstep : addMessage keepHtml acc m = acc := by
          rw [addMessage, hconv]
          simp
        have hfilter : ∀ k : String, k ≠ "" →
            (pre ++ [m]).filter (fun m' => m'.conversationId = some k) =
            pre.filter (fun m' => m'.conversationId = some k) := by
          intro k hk
          rw [List.filter_append]
          have : m.conversationId = some k ↔ False := by
            rw [hconv]
            simp [Ne.symm hk]
          simp [List.filter, this]
        rw [hstep]
        refine ih acc (pre ++ [m]) h1 ?_ ?_
        · intro k ms hmem
          obtain ⟨hk, hms, hEq⟩ := h2 k ms hmem
          exact ⟨hk, hms, by rw [hfilter k hk]; exact hEq⟩
        · intro k hk hne
          rw [hfilter k hk] at hne
          exact h3 k hk hne
      · -- a real conversation id: append to its bucket
        have hstep : addMessage keepHtml acc m =
            appendAt acc c (normalizeMessage keepHtml m) := by
          rw [addMessage, hconv]
          simp [hcE]
        obtain ⟨hN', hMem', hKeys'⟩ := appendAt_spec c (normalizeMessage keepHtml m) acc h1
        have hfilterNe : ∀ k : String, k ≠ c →
            (pre ++ [m]).filter (fun m' => m'.conversationId = some k) =
            pre.filter (fun m' => m'.conversationId = some k) := by
          intro k hk
          rw [List.filter_append]
          have : m.conversationId = some k ↔ False := by
            rw [hconv]
            simp [Ne.symm hk]
          simp [List.filter, this]
        have hfilterC :
            (pre ++ [m]).filter (fun m' => m'.conversationId = some c) =
            pre.filter (fun m' => m'.conversationId = some c) ++ [m] := by
          rw [List.filter_append]
          simp [List.filter, hconv]
        rw [hstep]
        refine ih _ (pre ++ [m]) hN' ?_ ?_
        · intro k ms hmem
          rcases hMem' k ms hmem with ⟨hne, hin⟩ | ⟨hEq, ms0, hms, hrest⟩
          · obtain ⟨hk, hmsne, hmsEq⟩ := h2 k ms hin
            exact ⟨hk, hmsne, by rw [hfilterNe k hne]; exact hmsEq⟩
          · subst hEq
            refine ⟨hcE, by simp [hms], ?_⟩
            rw [hfilterC, List.map_append]
            rcases hrest with hin | ⟨hnil, hnotin⟩
            · obtain ⟨_, _, hms0⟩ := h2 k ms0 hin
              rw [hms, hms0]
              simp
            · have hpre : pre.filter (fun m' => m'.conversationId = some k) = [] := by
                by_contra hne
                exact hnotin (h3 k hcE hne)
              rw [hms, hnil, hpre]
              simp
        · intro k hk hne
          rw [hKeys' k]
          by_cases hkc : k = c
          · exact Or.inr hkc
          · rw [hfilterNe k hkc] at hne
            exact Or.inl (h3 k hk hne)

/-! ### Sorting: order and stability of the two `list.sort` calls -/

theorem pairwise_filter_of {α : Type} (p : α → Bool) (S : α → α → Prop)
    (h : ∀ a b, p a = true → p b = true → S a b) :
    ∀ l : List α, (l.filter p).Pairwise S := by
  intro l
  induction l with
  | nil => simp
  | cons a l ih =>
    rw [List.filter_cons]
    split
    · refine List.Pairwise.cons ?_ ih
      intro b hb
      exact h a b (by assumption) (List.of_mem_filter hb)
    · exact ih

theorem mergeSortKey_sorted {α : Type} (key : α → Int × String) (l : List α) :
    (l.mergeSort (fun a b => keyLe (key a) (key b))).Pairwise
      (fun a b => keyLe (key a) (key b) = true) :=
  @List.sorted_mergeSort _ (fun a b => keyLe (key a) (key b))
    (fun _ _ _ hab hbc => keyLe_trans _ _ _ hab hbc)
    (fun _ _ => keyLe_total _ _) l

theorem mergeSortKey_stable {α : Type} (key : α → Int × String) (l : List α)
    (k : Int × String) :
    (l.mergeSort (fun a b => keyLe (key a) (key b))).filter (fun a => key a = k) =
    l.filter (fun a => key a = k) := by
  have hpair : (l.filter (fun a => key a = k)).Pairwise
      (fun a b => keyLe (key a) (key b) = true) := by
    refine pairwise_filter_of _ _ ?_ l
    intro a b ha hb
    have ha' : key a = k := by simpa using ha
    have hb' : key b = k := by simpa using hb
    rw [ha', hb']
    simp [keyLe, keyLt_irrefl]
  have hsub : (l.filter (fun a => key a = k)).Sublist
      (l.mergeSort (fun a b => keyLe (key a) (key b))) :=
    @List.sublist_mergeSort _ (fun a b => keyLe (key a) (key b)) _
      (fun _ _ _ hab hbc => keyLe_trans _ _ _ hab hbc)
      (fun _ _ => keyLe_total _ _) _ hpair (l.filter_sublist)
  have hsub2 : ((l.filter (fun a => key a = k)).filter (fun a => key a = k)).Sublist
      ((l.mergeSort (fun a b => keyLe (key a) (key b))).filter (fun a => key a = k)) :=
    hsub.filter _
  have hidem : (l.filter (fun a => key a = k)).filter (fun a => key a = k) =
      l.filter (fun a => key a = k) := by
    apply List.filter_eq_self.mpr
    intro a ha
    exact (List.mem_filter.mp ha).2
  rw [hidem] at hsub2
  have hperm : ((l.mergeSort (fun a b => keyLe (key a) (key b))).filter
      (fun a => key a = k)).Perm (l.filter (fun a => key a = k)) :=
    (List.mergeSort_perm l _).filter _
  exact (hsub2.eq_of_length hperm.length_eq.symm).symm

theorem sortMsgs_sorted (ms : List NormalizedMessage) :
    (sortMsgs ms).Pairwise (fun a b => keyLe (msgKey a) (msgKey b) = true) :=
  mergeSortKey_sorted msgKey ms

theorem sortMsgs_perm (ms : List NormalizedMessage) : (sortMsgs ms).Perm ms :=
  List.mergeSort_perm ms _

theorem sortMsgs_stable (ms : List NormalizedMessage) (k : Int × String) :
    (sortMsgs ms).filter (fun m => msgKey m = k) = ms.filter (fun m => msgKey m = k) :=
  mergeSortKey_stable msgKey ms k

theorem sortThreads_sorted (ts : List AssembledThread) :
    (sortThreads ts).Pairwise (fun a b => keyLe (threadKey a) (threadKey b) = true) :=
  mergeSortKey_sorted threadKey ts

theorem sortThreads_perm (ts : List AssembledThread) : (sortThreads ts).Perm ts :=
  List.mergeSort_perm ts _

theorem buildThreads_spec (keepHtml : Bool) (msgs : List RawMessage) :
    ((buildThreads keepHtml msgs).map Prod.fst).Nodup ∧
    (∀ k ms, (k, ms) ∈ buildThreads keepHtml msgs → k ≠ "" ∧ ms ≠ [] ∧
      ms = (msgs.filter (fun m => m.conversationId = some k)).map (normalizeMessage keepHtml)) ∧
    (∀ k, k ≠ "" → msgs.filter (fun m => m.conversationId = some k) ≠ [] →
      k ∈ (buildThreads keepHtml msgs).map Prod.fst) := by
  have h := buildThreads_fold_spec keepHtml msgs [] []
    (by simp)
    (by intro k ms hmem; simp at hmem)
    (by intro k _ hne; simp at hne)
  rw [List.nil_append] at h
  exact h

theorem assembleSorted_mem_spec (keepHtml : Bool) (msgs : List RawMessage)
    (t : AssembledThread) (ht : t ∈ assembleSorted keepHtml msgs) :
    t.thread_id ≠ "" ∧
    t.messages ≠ [] ∧
    t.messages =
      sortMsgs ((msgs.filter (fun m => m.conversationId = some t.thread_id)).map
        (normalizeMessage keepHtml)) ∧
    t.threadSort = (match t.messages.head? with | some m => m.sortRaw | none => none) := by
  have hmem : t ∈ mkThreadList (buildThreads keepHtml msgs) :=
    ((sortThreads_perm _).mem_iff).mp ht
  rw [mkThreadList, List.mem_map] at hmem
  obtain ⟨p, hp, hEq⟩ := hmem
  obtain ⟨k, ms⟩ := p
  obtain ⟨_, hBucket, _⟩ := buildThreads_spec keepHtml msgs
  obtain ⟨hkne, hmsne, hmsEq⟩ := hBucket k ms hp
  subst hEq
  dsimp only
  refine ⟨hkne, ?_, ?_, rfl⟩
  · intro hbad
    have hlen : (sortMsgs ms).length = ms.length := (sortMsgs_perm ms).length_eq
    rw [hbad] at hlen
    simp at hlen
    exact hmsne (List.length_eq_zero.mp hlen.symm)
  · rw [hmsEq]

theorem assembleSorted_ids_nodup (keepHtml : Bool) (msgs : List RawMessage) :
    ((assembleSorted keepHtml msgs).map (fun t => t.thread_id)).Nodup := by
  have hperm : ((assembleSorted keepHtml msgs).map (fun t => t.thread_id)).Perm
      ((mkThreadList (buildThreads keepHtml msgs)).map (fun t => t.thread_id)) :=
    (sortThreads_perm _).map _
  have hEq : ((mkThreadList (buildThreads keepHtml msgs)).map (fun t => t.thread_id)) =
      (buildThreads keepHtml msgs).map Prod.fst := by
    rw [mkThreadList, List.map_map]
    rfl
  rw [List.Perm.nodup_iff hperm, hEq]
  exact (buildThreads_spec keepHtml msgs).1

theorem assembleSorted_exists_thread (keepHtml : Bool) (msgs : List RawMessage)
    (c : String) (hc : c ≠ "") (m : RawMessage) (hm : m ∈ msgs)
    (hconv : m.conversationId = some c) :
    ∃ t ∈ assembleSorted keepHtml msgs, t.thread_id = c := by
  obtain ⟨_, _, hKeys⟩ := buildThreads_spec keepHtml msgs
  have hne : msgs.filter (fun m' => m'.conversationId = some c) ≠ [] := by
    have : m ∈ msgs.filter (fun m' => m'.conversationId = some c) :=
      List.mem_filter.mpr ⟨hm, by simp [hconv]⟩
    intro hbad
    rw [hbad] at this
    exact List.not_mem_nil m this
  have hkey := hKeys c hc hne
  rw [List.mem_map] at hkey
  obtain ⟨p, hp, hpk⟩ := hkey
  refine ⟨{ thread_id := p.1, messages := sortMsgs p.2,
            threadSort := match (sortMsgs p.2).head? with
                          | some m' => m'.sortRaw
                          | none => none }, ?_, hpk⟩
  apply ((sortThreads_perm _).mem_iff).mpr
  rw [mkThreadList, List.mem_map]
  exact ⟨p, hp, rfl⟩

/-! ### Markup stripping is the identity on already-clean text -/

theorem stripTags_id_of_not_containsTag :
    ∀ cs, containsTag cs = false → stripTags cs = cs := by
  intro cs
  induction cs with
  | nil => intro _; rw [stripTags]
  | cons c rest ih =>
    intro h
    rw [containsTag, Bool.or_eq_false_iff, Bool.and_eq_false_iff] at h
    obtain ⟨h1, h2⟩ := h
    rw [stripTags]
    by_cases hc : c = '<'
    · have hdrop : dropTag rest = none := by
        rcases h1 with h1 | h1
        · rw [hc] at h1
          simp at h1
        · exact Option.not_isSome_iff_eq_none.mp (by rw [h1]; simp)
      rw [if_pos hc, hdrop, ih h2]
    · rw [if_neg hc, ih h2]

theorem unescape_id_of_not_containsCharref :
    ∀ cs, containsCharref cs = false → unescape cs = cs := by
  intro cs
  induction cs with
  | nil => intro _; rw [unescape]
  | cons c rest ih =>
    intro h
    rw [containsCharref, Bool.or_eq_false_iff, Bool.and_eq_false_iff] at h
    obtain ⟨h1, h2⟩ := h
    rw [unescape]
    by_cases hc : c = '&'
    · have hsplit : charrefSplit rest = none := by
        rcases h1 with h1 | h1
        · rw [hc] at h1
          simp at h1
        · exact Option.not_isSome_iff_eq_none.mp (by rw [h1]; simp)
      rw [if_pos hc, hsplit, ih h2, hc]
    · rw [if_neg hc, ih h2]

theorem dropWhile_head_pred {α : Type} (p : α → Bool) :
    ∀ (l : List α) d r, l.dropWhile p = d :: r → p d = false := by
  intro l
  induction l with
  | nil => intro d r h; simp [List.dropWhile] at h
  | cons a l ih =>
    intro d r h
    rw [List.dropWhile_cons] at h
    split at h
    · exact ih d r h
    · cases h
      simp_all

theorem noDoubleSpace_tail : ∀ (a : Char) (l : List Char),
    noDoubleSpace (a :: l) = true → noDoubleSpace l = true := by
  intro a l h
  cases l with
  | nil => rfl
  | cons b r =>
    rw [noDoubleSpace, Bool.and_eq_true] at h
    exact h.2

theorem noDoubleSpace_append_right : ∀ (xs ys : List Char),
    noDoubleSpace (xs ++ ys) = true → noDoubleSpace ys = true := by
  intro xs
  induction xs with
  | nil => intro ys h; simpa using h
  | cons a xs ih =>
    intro ys h
    rw [List.cons_append] at h
    exact ih ys (noDoubleSpace_tail a (xs ++ ys) h)

theorem words_ne_nil (e : Char) (r : List Char) (he : isPySpace e = false) :
    words (e :: r) ≠ [] := by
  rw [words, if_neg (by simp [he])]
  simp

theorem joinSp_cons_of_ne_nil (w : List Char) (ws : List (List Char)) (h : ws ≠ []) :
    joinSp (w :: ws) = w ++ ' ' :: joinSp ws := by
  cases ws with
  | nil => exact absurd rfl h
  | cons w1 ws' =>
    rw [joinSp]
    simp

theorem joinSp_words_of_clean :
    ∀ (n : Nat) (cs : List Char), cs.length ≤ n →
      (∀ c ∈ cs, isPySpace c = true → c = ' ') →
      noDoubleSpace cs = true →
      (∀ c, cs.head? = some c → isPySpace c = false) →
      (∀ c, cs.getLast? = some c → isPySpace c = false) →
      joinSp (words cs) = cs := by
  intro n
  induction n with
  | zero =>
    intro cs hlen _ _ _ _
    have : cs = [] := List.length_eq_zero.mp (Nat.le_zero.mp hlen)
    subst this
    rw [words, joinSp]
  | succ n ih =>
    intro cs hlen hall hnds hhead hlast
    cases cs with
    | nil => rw [words, joinSp]
    | cons c rest =>
      have hc : isPySpace c = false := hhead c rfl
      rw [words, if_neg (by simp [hc])]
      have hsplit : rest.takeWhile (fun d => !isPySpace d) ++
          rest.dropWhile (fun d => !isPySpace d) = rest :=
        List.takeWhile_append_dropWhile _ _
      rcases hr : rest.dropWhile (fun d => !isPySpace d) with _ | ⟨d, r'⟩
      · -- no whitespace after the first word: a single word
        rw [hr, List.append_nil] at hsplit
        rw [words, joinSp]
        rw [hsplit]
      · have hd : isPySpace d = true := by
          have := dropWhile_head_pred (fun d => !isPySpace d) rest d r' hr
          simpa using this
        have hdcs : d ∈ c :: rest := by
          have hmem : d ∈ rest.dropWhile (fun d => !isPySpace d) := by
            rw [hr]; exact List.mem_cons_self d r'
          exact List.mem_cons_of_mem c ((List.dropWhile_sublist _).subset hmem)
        have hdsp : d = ' ' := hall d hdcs hd
        have hcsEq : c :: rest =
            (c :: rest.takeWhile (fun d => !isPySpace d)) ++ (d :: r') := by
          rw [List.cons_append]
          rw [← hr, hsplit]
        rcases r' with _ | ⟨e, r''⟩
        · -- a trailing space: contradicts the trimmed-end condition
          exfalso
          have hlastd : (c :: rest).getLast? = some d := by
            rw [hcsEq]
            exact List.getLast?_concat _
          have hfalse := hlast d hlastd
          rw [hd] at hfalse
          exact Bool.noConfusion hfalse
        · have he : isPySpace e = false := by
            have hnd : noDoubleSpace (d :: e :: r'') = true := by
              have := noDoubleSpace_append_right
                (c :: rest.takeWhile (fun d => !isPySpace d)) (d :: e :: r'')
                (by rw [← hcsEq]; exact hnds)
              exact this
            rw [noDoubleSpace, Bool.and_eq_true] at hnd
            have := hnd.1
            rw [hd] at this
            simpa using this
          have hlen' : (e :: r'').length ≤ n := by
            have h1 : (c :: rest).length = (c :: rest.takeWhile (fun d => !isPySpace d)).length
                + (d :: e :: r'').length := by
              rw [hcsEq, List.length_append]
            simp only [List.length_cons] at h1 hlen ⊢
            omega
          have hsubset : ∀ x, x ∈ e :: r'' → x ∈ c :: rest := by
            intro x hx
            rw [hcsEq]
            apply List.mem_append_right
            exact List.mem_cons_of_mem d hx
          have hih := ih (e :: r'') hlen'
            (fun x hx hsp => hall x (hsubset x hx) hsp)
            (by
              have := noDoubleSpace_append_right
                ((c :: rest.takeWhile (fun d => !isPySpace d)) ++ [d]) (e :: r'')
                (by rw [List.append_assoc]; simpa [← hcsEq] using hnds)
              exact this)
            (by intro x hx; cases hx; exact he)
            (by
              intro x hx
              apply hlast
              rw [hcsEq]
              rw [List.getLast?_append_of_ne_nil _ (show (d :: e :: r'') ≠ [] by simp)]
              rw [List.getLast?_cons_cons]
              exact hx)
          rw [words]
          rw [if_pos (by simp [hd])]
          rw [joinSp_cons_of_ne_nil _ _ (words_ne_nil e r'' he)]
          rw [hih]
          rw [hcsEq, hdsp]

/-! ### The retry loop -/

theorem runLoopAux_all_fail (svc : Nat → CallOutcome) (loads : String → Option JVal)
    (hfail : ∀ i, (∃ e, svc i = .exn e) ∨
      (∃ resp, svc i = .ok resp ∧ extract_json_content loads resp = some (.obj []))) :
    ∀ fuel attempt error, ∃ e',
      runLoopAux svc loads fuel attempt (.obj []) error =
        some { parsed := .obj [], error := e', calls := fuel } ∧
      (fuel = 0 → e' = error) ∧
      (1 ≤ fuel → e'.isSome = true) := by
  intro fuel
  induction fuel with
  | zero =>
    intro attempt error
    exact ⟨error, rfl, fun _ => rfl, fun h => absurd h (by omega)⟩
  | succ k ih =>
    intro attempt error
    rcases hfail attempt with ⟨e, hsvc⟩ | ⟨resp, hsvc, hext⟩
    · obtain ⟨e', ih1, ih2, ih3⟩ := ih (attempt + 1) (some e)
      refine ⟨e', ?_, fun h => absurd h (by omega), fun _ => ?_⟩
      · rw [runLoopAux, hsvc]
        dsimp only
        rw [ih1]
        rfl
      · cases k with
        | zero => rw [ih2 rfl]; rfl
        | succ k' => exact ih3 (by omega)
    · obtain ⟨e', ih1, ih2, ih3⟩ := ih (attempt + 1) (some emptyRespMsg)
      refine ⟨e', ?_, fun h => absurd h (by omega), fun _ => ?_⟩
      · rw [runLoopAux, hsvc]
        dsimp only
        rw [hext]
        dsimp only
        rw [if_neg (by simp [JVal.truthy])]
        rw [ih1]
        rfl
      · cases k with
        | zero => rw [ih2 rfl]; rfl
        | succ k' => exact ih3 (by omega)

theorem runLoop_all_fail (svc : Nat → CallOutcome) (loads : String → Option JVal)
    (maxRetries : Nat)
    (hfail : ∀ i, (∃ e, svc i = .exn e) ∨
      (∃ resp, svc i = .ok resp ∧ extract_json_content loads resp = some (.obj []))) :
    ∃ e, runLoop svc loads maxRetries =
      some { parsed := .obj [], error := some e, calls := maxRetries + 1 } := by
  obtain ⟨e', h1, _, h3⟩ := runLoopAux_all_fail svc loads hfail (maxRetries + 1) 0 none
  obtain ⟨e, hee⟩ := Option.isSome_iff_exists.mp (h3 (by omega))
  subst hee
  exact ⟨e, h1⟩

theorem runLoopAux_first_success (svc : Nat → CallOutcome) (loads : String → Option JVal)
    (j : Nat) (resp v : JVal)
    (hj : svc j = .ok resp) (hext : extract_json_content loads resp = some v)
    (htruthy : v.truthy = true)
    (hbefore : ∀ i, i < j → (∃ e, svc i = .exn e) ∨
      (∃ r w, svc i = .ok r ∧ extract_json_content loads r = some w ∧ w.truthy = false)) :
    ∀ fuel attempt parsed error, attempt ≤ j → j < attempt + fuel →
      ∃ lr, runLoopAux svc loads fuel attempt parsed error = some lr ∧
        lr.calls = j - attempt + 1 ∧ lr.parsed = v := by
  intro fuel
  induction fuel with
  | zero =>
    intro attempt parsed error h1 h2
    omega
  | succ k ih =>
    intro attempt parsed error h1 h2
    by_cases hEq : attempt = j
    · subst hEq
      rw [runLoopAux, hj]
      dsimp only
      rw [hext]
      dsimp only
      rw [if_pos htruthy]
      exact ⟨_, rfl, by simp, rfl⟩
    · have hlt : attempt < j := by omega
      rcases hbefore attempt hlt with ⟨e, hsvc⟩ | ⟨r, w, hsvc, hw, hfalsy⟩
      · obtain ⟨lr, ih1, ih2, ih3⟩ := ih (attempt + 1) parsed (some e) (by omega) (by omega)
        refine ⟨{ lr with calls := lr.calls + 1 }, ?_, ?_, ih3⟩
        · rw [runLoopAux, hsvc]
          dsimp only
          rw [ih1]
          rfl
        · simp [ih2]
          omega
      · obtain ⟨lr, ih1, ih2, ih3⟩ := ih (attempt + 1) w (some emptyRespMsg)
          (by omega) (by omega)
        refine ⟨{ lr with calls := lr.calls + 1 }, ?_, ?_, ih3⟩
        · rw [runLoopAux, hsvc]
          dsimp only
          rw [hw]
          dsimp only
          rw [if_neg (by simp [hfalsy])]
          rw [ih1]
          rfl
        · simp [ih2]
          omega

theorem runLoopAux_error_invariant (svc : Nat → CallOutcome) (loads : String → Option JVal) :
    ∀ fuel attempt parsed error res,
      (error.isSome = true ∨ 1 ≤ fuel) →
      runLoopAux svc loads fuel attempt parsed error = some res →
      res.parsed.truthy = true ∨ res.error.isSome = true := by
  intro fuel
  induction fuel with
  | zero =>
    intro attempt parsed error res h hres
    rw [runLoopAux] at hres
    cases hres
    rcases h with h | h
    · exact Or.inr h
    · omega
  | succ k ih =>
    intro attempt parsed error res h hres
    rw [runLoopAux] at hres
    rcases hsvc : svc attempt with resp | e
    · rw [hsvc] at hres
      dsimp only at hres
      rcases hext : extract_json_content loads resp with _ | v
      · rw [hext] at hres
        exact Option.noConfusion hres
      · rw [hext] at hres
        dsimp only at hres
        by_cases ht : v.truthy = true
        · rw [if_pos ht] at hres
          cases hres
          exact Or.inl ht
        · rw [if_neg ht] at hres
          rcases hrec : runLoopAux svc loads k (attempt + 1) v (some emptyRespMsg)
            with _ | lr
          · rw [hrec] at hres
            exact Option.noConfusion hres
          · rw [hrec] at hres
            cases hres
            have := ih (attempt + 1) v (some emptyRespMsg) lr (Or.inl rfl) hrec
            simpa using this
    · rw [hsvc] at hres
      dsimp only at hres
      rcases hrec : runLoopAux svc loads k (attempt + 1) parsed (some e) with _ | lr
      · rw [hrec] at hres
        exact Option.noConfusion hres
      · rw [hrec] at hres
        cases hres
        have := ih (attempt + 1) parsed (some e) lr (Or.inl rfl) hrec
        simpa using this


theorem runThreadsAux_write (svc : Nat → Nat → CallOutcome) (loads : String → Option JVal)
    (maxRetries : Nat) :
    ∀ (ts : List InThread) (idx : Nat) (acc : List ClassificationResult) (k : Nat),
      k < ts.length →
      (runThreadsAux svc loads maxRetries ts idx acc)[k]? =
        (classifyList svc loads maxRetries (ts.take (k + 1)) idx).map (acc ++ ·) := by
  intro ts
  induction ts with
  | nil =>
    intro idx acc k hk
    simp at hk
  | cons t ts ih =>
    intro idx acc k hk
    rcases hcl : classifyOne (svc idx) loads maxRetries t with _ | r
    · rw [runThreadsAux, hcl]
      rw [List.take_succ_cons, classifyList, hcl]
      simp
    · rw [runThreadsAux, hcl]
      cases k with
      | zero =>
        rw [List.take_succ_cons, classifyList, hcl]
        simp [classifyList]
      | succ k =>
        rw [List.getElem?_cons_succ]
        rw [ih (idx + 1) (acc ++ [r]) k (by simpa using Nat.lt_of_succ_lt_succ hk)]
        rw [List.take_succ_cons, classifyList, hcl]
        cases hopt : classifyList svc loads maxRetries (List.take (k + 1) ts) (idx + 1) with
        | none => rfl
        | some xs => simp

/-! ### Claim theorems -/

/-- C9: for every string that is already stripped — no HTML tag span, no
HTML character reference, and whitespace already collapsed to single
spaces with trimmed ends — `strip_html` returns the string unchanged. -/
theorem claim_C9_strip_idempotent (s : String)
    (h1 : containsTag s.data = false)
    (h2 : containsCharref s.data = false)
    (h3 : wsNormalized s.data = true) :
    strip_html s = s := by
  obtain ⟨cs⟩ := s
  rw [wsNormalized] at h3
  rw [Bool.and_eq_true, Bool.and_eq_true, Bool.and_eq_true] at h3
  obtain ⟨⟨⟨hhead, hlast⟩, hnds⟩, hall⟩ := h3
  rw [strip_html]
  rw [stripTags_id_of_not_containsTag _ h1]
  rw [unescape_id_of_not_containsCharref _ h2]
  apply congrArg String.mk
  apply joinSp_words_of_clean cs.length cs le_rfl
  · intro c hc hsp
    have := List.all_eq_true.mp hall c hc
    rw [hsp] at this
    simpa using this
  · exact hnds
  · intro c hc
    rw [hc] at hhead
    simpa using hhead
  · intro c hc
    rw [hc] at hlast
    simpa using hlast

/-- Witness for C9 at the concrete clean string `"Hi & bye"` (which even
contains a bare ampersand that is not a character reference). -/
theorem claim_C9_witness : strip_html "Hi & bye" = "Hi & bye" :=
  claim_C9_strip_idempotent "Hi & bye" (by decide) (by decide) (by decide)

/-- C8: each per-message anomaly takes its defined fallback and assembly
is total on such records: a missing conversation id excludes the message
from every bucket, a missing or null body becomes the empty message
string, a missing timestamp gets the sort key `(0, "")`, and an
unparsable timestamp string the sort key `(0, s)`. -/
theorem claim_C8_tolerated_anomalies (keepHtml : Bool) (m : RawMessage)
    (buckets : List (String × List NormalizedMessage)) (s : String) :
    (m.conversationId = none → addMessage keepHtml buckets m = buckets) ∧
    (m.content = none → (normalizeMessage keepHtml m).message = "") ∧
    (m.createdDateTime = none →
      parse_iso ((normalizeMessage keepHtml m).sortRaw) = (0, "")) ∧
    (s ≠ "" → fromisoformatEpoch (pyStrReplace s "Z" "+00:00") = none →
      parse_iso (some s) = (0, s)) := by
  refine ⟨?_, ?_, ?_, ?_⟩
  · intro h
    rw [addMessage, h]
  · intro h
    rw [normalizeMessage]
    simp only [h, Option.getD_none]
    cases keepHtml
    · have hcond : ¬((false : Bool) = true) := by simp
      rw [if_neg hcond]
      rw [strip_html]
      rw [show ("" : String).data = ([] : List Char) from rfl]
      rw [stripTags, unescape, words, joinSp]
    · rw [if_pos rfl]
  · intro h
    rw [normalizeMessage]
    simp only [h]
    rfl
  · intro hne h
    rw [parse_iso]
    rw [if_neg hne, h]

/-- Witness for C8: a record missing all three fields, and the unparsable
timestamp string `"zzz"`. -/
theorem claim_C8_witness :
    addMessage false []
      { id := none, conversationId := none, createdDateTime := none, content := none,
        authorDisplayName := none, authorId := none, authorEmail := none } = [] ∧
    (normalizeMessage false
      { id := none, conversationId := none, createdDateTime := none, content := none,
        authorDisplayName := none, authorId := none, authorEmail := none }).message = "" ∧
    parse_iso (normalizeMessage false
      { id := none, conversationId := none, createdDateTime := none, content := none,
        authorDisplayName := none, authorId := none, authorEmail := none }).sortRaw = (0, "") ∧
    parse_iso (some "zzz") = (0, "zzz") := by
  obtain ⟨a, b, c, d⟩ := claim_C8_tolerated_anomalies false
    { id := none, conversationId := none, createdDateTime := none, content := none,
      authorDisplayName := none, authorId := none, authorEmail := none } [] "zzz"
  exact ⟨a rfl, b rfl, c rfl, d (by decide) (by decide)⟩

/-- C1, counterexample to the claim as frozen: a service whose reply
content is always the string `"[]"` yields a syntactically valid but
empty (falsy) extraction on every attempt — the Python list `[]`, not the
dict `{}` — so the loop does perform `1 + max_retries` attempts, but then
`parsed.get("Incident Number", "")` at classify_threads.py line 116
raises an uncaught `AttributeError` on the list: no result is recorded,
nothing is written, and no later thread is processed, refuting
"records a result with a non-null error string … and continues to the
next thread". -/
theorem claim_C1_counterexample :
    extract_json_content (fun s => if s = "[]" then some (JVal.arr []) else none)
      (JVal.obj [("choices", JVal.arr
        [JVal.obj [("message", JVal.obj [("content", JVal.str "[]")])]])]) =
      some (JVal.arr []) ∧
    (JVal.arr []).truthy = false ∧
    runLoop (fun _ => CallOutcome.ok (JVal.obj [("choices", JVal.arr
        [JVal.obj [("message", JVal.obj [("content", JVal.str "[]")])]])]))
      (fun s => if s = "[]" then some (JVal.arr []) else none) 2 =
      some { parsed := JVal.arr [], error := some emptyRespMsg, calls := 2 + 1 } ∧
    classifyOne (fun _ => CallOutcome.ok (JVal.obj [("choices", JVal.arr
        [JVal.obj [("message", JVal.obj [("content", JVal.str "[]")])]])]))
      (fun s => if s = "[]" then some (JVal.arr []) else none) 2
      ⟨some "T1", JVal.arr []⟩ = none ∧
    runWrites (fun _ _ => CallOutcome.ok (JVal.obj [("choices", JVal.arr
        [JVal.obj [("message", JVal.obj [("content", JVal.str "[]")])]])]))
      (fun s => if s = "[]" then some (JVal.arr []) else none) 2
      [⟨some "T1", JVal.arr []⟩, ⟨some "T2", JVal.arr []⟩] = [] :=
  ⟨rfl, rfl, rfl, rfl, rfl⟩

/-- C1 (amended): a thread whose every attempt raises a transport error
or yields the empty-OBJECT extraction `{}` (what `extract_json_content`
returns for a falsy `choices`, a falsy `content`, or non-JSON content)
makes exactly `1 + max_retries` service calls and then records a result
whose error is a non-null string and whose four classification fields
are all the empty string, and the run continues with the next thread; a
falsy non-dict extraction (e.g. content `"[]"`) instead crashes result
construction after the same number of attempts, recording nothing
(`claim_C1_counterexample`).  On the first attempt whose extraction is a
non-empty JSON object, no further calls are made (`j + 1` calls in
total). -/
theorem claim_C1_amended_retry_termination (svc : Nat → CallOutcome)
    (loads : String → Option JVal) (maxRetries : Nat) (t : InThread) :
    ((∀ i, (∃ e, svc i = .exn e) ∨
        (∃ resp, svc i = .ok resp ∧
          extract_json_content loads resp = some (.obj []))) →
      ∃ e, runLoop svc loads maxRetries =
          some { parsed := .obj [], error := some e, calls := maxRetries + 1 } ∧
        classifyOne svc loads maxRetries t =
          some { thread_id := t.thread_id, incident_number := .str "",
                 root_cause := .str "", type := .str "", severity := .str "",
                 error := some e } ∧
        (∀ (F : Nat → Nat → CallOutcome) (ts : List InThread)
           (acc : List ClassificationResult) (idx : Nat), F idx = svc →
          runThreadsAux F loads maxRetries (t :: ts) idx acc =
            (acc ++ [{ thread_id := t.thread_id, incident_number := .str "",
                       root_cause := .str "", type := .str "", severity := .str "",
                       error := some e }]) ::
            runThreadsAux F loads maxRetries ts (idx + 1)
              (acc ++ [{ thread_id := t.thread_id, incident_number := .str "",
                         root_cause := .str "", type := .str "", severity := .str "",
                         error := some e }]))) ∧
    (∀ j resp fs, j ≤ maxRetries →
      (∀ i, i < j → (∃ e, svc i = .exn e) ∨
        (∃ r w, svc i = .ok r ∧ extract_json_content loads r = some w ∧
          w.truthy = false)) →
      svc j = .ok resp → extract_json_content loads resp = some (.obj fs) → fs ≠ [] →
      ∃ lr, runLoop svc loads maxRetries = some lr ∧ lr.calls = j + 1) := by
  constructor
  · intro hfail
    obtain ⟨e, hrl⟩ := runLoop_all_fail svc loads maxRetries hfail
    refine ⟨e, hrl, ?_⟩
    have hbuild : classifyOne svc loads maxRetries t =
        some { thread_id := t.thread_id, incident_number := .str "",
               root_cause := .str "", type := .str "", severity := .str "",
               error := some e } := by
      rw [classifyOne, hrl]
      rfl
    refine ⟨hbuild, ?_⟩
    intro F ts acc idx hF
    rw [runThreadsAux, hF, hbuild]
  · intro j resp fs hj hbefore hsvc hext hfs
    have htruthy : (JVal.obj fs).truthy = true := by
      simpa [JVal.truthy] using hfs
    obtain ⟨lr, h1, h2, _⟩ := runLoopAux_first_success svc loads j resp (.obj fs)
      hsvc hext htruthy hbefore (maxRetries + 1) 0 (.obj []) none (by omega) (by omega)
    refine ⟨lr, h1, ?_⟩
    omega

/-- Witness for the amended C1: a service that always raises makes
exactly three calls with the default retry budget of two and ends with
the empty parse and a recorded error. -/
theorem claim_C1_amended_witness :
    ∃ e, runLoop (fun _ => CallOutcome.exn "boom") (fun _ => none) 2 =
      some { parsed := .obj [], error := some e, calls := 2 + 1 } := by
  obtain ⟨e, h1, _⟩ := (claim_C1_amended_retry_termination
    (fun _ => CallOutcome.exn "boom") (fun _ => none) 2 ⟨some "T1", .arr []⟩).1
    (fun _ => Or.inl ⟨"boom", rfl⟩)
  exact ⟨e, h1⟩

/-- C2: every produced ClassificationResult has exactly one of two
shapes — a null error with the four fields read from the final parsed
reply (missing keys defaulting to the empty string), or a non-null error
with all four fields equal to the empty string; the shapes are mutually
exclusive since `none ≠ some e`.  A run whose loop or result
construction crashes produces no result and is outside the claim's
quantification. -/
theorem claim_C2_result_shape (svc : Nat → CallOutcome) (loads : String → Option JVal)
    (maxRetries : Nat) (tid : Option String) (lr : LoopResult) (r : ClassificationResult)
    (hlr : runLoop svc loads maxRetries = some lr)
    (hr : buildResult tid lr = some r) :
    ((r.error = none ∧ ∃ fs, lr.parsed = .obj fs ∧
        (JVal.obj fs).truthy = true ∧
        r.incident_number = (fs.lookup "Incident Number").getD (.str "") ∧
        r.root_cause = (fs.lookup "Root Cause").getD (.str "") ∧
        r.type = (fs.lookup "Type").getD (.str "") ∧
        r.severity = (fs.lookup "Severity").getD (.str "")) ∨
      (∃ e, r.error = some e ∧ r.incident_number = .str "" ∧ r.root_cause = .str "" ∧
        r.type = .str "" ∧ r.severity = .str "")) ∧
    ¬((r.error = none) ∧ (∃ e, r.error = some e)) := by
  constructor
  · rw [buildResult] at hr
    split at hr
    · rename_i fs hfs
      cases hr
      cases htruthy : (JVal.obj fs).truthy
      · have hfsnil : fs = [] := by
          simpa [JVal.truthy] using htruthy
        subst hfsnil
        have hinv := runLoopAux_error_invariant svc loads (maxRetries + 1) 0 (.obj []) none
          lr (Or.inr (by omega)) hlr
        rcases hinv with hinv | hinv
        · rw [hfs, htruthy] at hinv
          exact Bool.noConfusion hinv
        · obtain ⟨e, hee⟩ := Option.isSome_iff_exists.mp hinv
          refine Or.inr ⟨e, ?_⟩
          simp [htruthy, hee, List.lookup]
      · exact Or.inl ⟨by simp [htruthy], fs, hfs, htruthy, rfl, rfl, rfl, rfl⟩
    · exact Option.noConfusion hr
  · rintro ⟨hnone, e, hsome⟩
    rw [hnone] at hsome
    exact Option.noConfusion hsome

/-- Witness for C2 at a concrete failing run (`max_retries = 0`, one
raising call): the produced result takes the second (error) shape. -/
theorem claim_C2_witness :
    (({ thread_id := some "T", incident_number := .str "", root_cause := .str "",
        type := .str "", severity := .str "",
        error := some "x" } : ClassificationResult).error = none ∧
      ∃ fs, ({ parsed := JVal.obj [], error := some "x", calls := 1 } : LoopResult).parsed =
          .obj fs ∧
        (JVal.obj fs).truthy = true ∧
        ({ thread_id := some "T", incident_number := .str "", root_cause := .str "",
           type := .str "", severity := .str "",
           error := some "x" } : ClassificationResult).incident_number =
          (fs.lookup "Incident Number").getD (.str "") ∧
        ({ thread_id := some "T", incident_number := .str "", root_cause := .str "",
           type := .str "", severity := .str "",
           error := some "x" } : ClassificationResult).root_cause =
          (fs.lookup "Root Cause").getD (.str "") ∧
        ({ thread_id := some "T", incident_number := .str "", root_cause := .str "",
           type := .str "", severity := .str "",
           error := some "x" } : ClassificationResult).type =
          (fs.lookup "Type").getD (.str "") ∧
        ({ thread_id := some "T", incident_number := .str "", root_cause := .str "",
           type := .str "", severity := .str "",
           error := some "x" } : ClassificationResult).severity =
          (fs.lookup "Severity").getD (.str "")) ∨
    (∃ e, ({ thread_id := some "T", incident_number := .str "", root_cause := .str "",
             type := .str "", severity := .str "",
             error := some "x" } : ClassificationResult).error = some e ∧
      ({ thread_id := some "T", incident_number := .str "", root_cause := .str "",
         type := .str "", severity := .str "",
         error := some "x" } : ClassificationResult).incident_number = .str "" ∧
      ({ thread_id := some "T", incident_number := .str "", root_cause := .str "",
         type := .str "", severity := .str "",
         error := some "x" } : ClassificationResult).root_cause = .str "" ∧
      ({ thread_id := some "T", incident_number := .str "", root_cause := .str "",
         type := .str "", severity := .str "",
         error := some "x" } : ClassificationResult).type = .str "" ∧
      ({ thread_id := some "T", incident_number := .str "", root_cause := .str "",
         type := .str "", severity := .str "",
         error := some "x" } : ClassificationResult).severity = .str "") :=
  (claim_C2_result_shape (fun _ => CallOutcome.exn "x") (fun _ => none) 0 (some "T")
    { parsed := JVal.obj [], error := some "x", calls := 1 }
    { thread_id := some "T", incident_number := .str "", root_cause := .str "",
      type := .str "", severity := .str "", error := some "x" } rfl rfl).1

/-- C7: the k-th output-file write of a run (the artifact's content after
the first k+1 threads complete, hence what an interruption between
threads leaves behind) is exactly the list of the first k+1 threads'
fully-formed results, in processing order, and it has exactly k+1
entries. -/
theorem claim_C7_incremental_persistence (svc : Nat → Nat → CallOutcome)
    (loads : String → Option JVal) (maxRetries : Nat)
    (threads : List InThread) (k : Nat) (hk : k < threads.length) :
    (runWrites svc loads maxRetries threads)[k]? =
      classifyList svc loads maxRetries (threads.take (k + 1)) 0 ∧
    (∀ w, (runWrites svc loads maxRetries threads)[k]? = some w → w.length = k + 1) := by
  have h := runThreadsAux_write svc loads maxRetries threads 0 [] k hk
  rw [runWrites]
  have hid : (classifyList svc loads maxRetries (threads.take (k + 1)) 0).map
      (fun x => [] ++ x) = classifyList svc loads maxRetries (threads.take (k + 1)) 0 := by
    cases classifyList svc loads maxRetries (threads.take (k + 1)) 0 <;> simp
  rw [h, hid]
  refine ⟨rfl, ?_⟩
  intro w hw
  have hlen : ∀ (ts : List InThread) (idx : Nat) (rs : List ClassificationResult),
      classifyList svc loads maxRetries ts idx = some rs → rs.length = ts.length := by
    intro ts
    induction ts with
    | nil => intro idx rs hrs; rw [classifyList] at hrs; cases hrs; rfl
    | cons t ts ih =>
      intro idx rs hrs
      rw [classifyList] at hrs
      split at hrs
      · rename_i r hr
        rcases hcl : classifyList svc loads maxRetries ts (idx + 1) with _ | rs'
        · rw [hcl] at hrs; simp at hrs
        · rw [hcl] at hrs
          cases hrs
          simp [ih (idx + 1) rs' hcl]
      · exact Option.noConfusion hrs
  have := hlen (threads.take (k + 1)) 0 w hw
  rw [this, List.length_take]
  omega

/-- Witness for C7: one thread, one raising call, write index zero. -/
theorem claim_C7_witness :
    (runWrites (fun _ _ => CallOutcome.exn "x") (fun _ => none) 0
        [⟨some "A", .arr []⟩])[0]? =
      classifyList (fun _ _ => CallOutcome.exn "x") (fun _ => none) 0
        ([⟨some "A", .arr []⟩].take (0 + 1)) 0 :=
  (claim_C7_incremental_persistence (fun _ _ => CallOutcome.exn "x") (fun _ => none) 0
    [⟨some "A", .arr []⟩] 0 (by decide)).1

theorem parse_iso_malformed (dt : Option String)
    (h : dt = none ∨ dt = some "" ∨
      (∃ b, dt = some b ∧ b ≠ "" ∧
        fromisoformatEpoch (pyStrReplace b "Z" "+00:00") = none)) :
    parse_iso dt = (0, dt.getD "") := by
  rcases h with h | h | ⟨b, hb, hbne, hbf⟩
  · subst h; rfl
  · subst h; rfl
  · subst hb
    rw [parse_iso, if_neg hbne, hbf]
    rfl

/-- C3, counterexample to the claim as frozen: the claim says a missing
or unparsable timestamp sorts before the key of EVERY valid ISO-8601
timestamp, but `"1970-01-01T00:00:00Z"` is valid with epoch seconds 0,
so its key `(0, "1970-…")` sorts strictly BEFORE the malformed key
`(0, "zzz")` — not after it. -/
theorem claim_C3_counterexample :
    fromisoformatEpoch (pyStrReplace "1970-01-01T00:00:00Z" "Z" "+00:00") = some 0 ∧
    fromisoformatEpoch (pyStrReplace "zzz" "Z" "+00:00") = none ∧
    parse_iso (some "1970-01-01T00:00:00Z") = (0, "1970-01-01T00:00:00Z") ∧
    parse_iso (some "zzz") = (0, "zzz") ∧
    keyLt (parse_iso (some "zzz")) (parse_iso (some "1970-01-01T00:00:00Z")) = false ∧
    keyLt (parse_iso (some "1970-01-01T00:00:00Z")) (parse_iso (some "zzz")) = true := by
  decide

/-- C3 (amended): a missing or unparsable timestamp maps to the pair
`(0, original-or-empty-string)` and sorts strictly before every valid
ISO-8601 timestamp whose epoch-seconds is positive (valid timestamps at
or before the 1970 epoch can sort at or before a malformed key); within
the pair ordering epoch-seconds is the primary key and the raw string the
tie-break, so two malformed/missing timestamps get equal keys exactly
when their raw strings match. -/
theorem claim_C3_amended_timestamp_order (dt dt' : Option String) (s : String) (e : Int) :
    (parse_iso none = (0, "") ∧ parse_iso (some "") = (0, "")) ∧
    (s ≠ "" → fromisoformatEpoch (pyStrReplace s "Z" "+00:00") = none →
      parse_iso (some s) = (0, s)) ∧
    ((dt = none ∨ dt = some "" ∨
        (∃ b, dt = some b ∧ b ≠ "" ∧
          fromisoformatEpoch (pyStrReplace b "Z" "+00:00") = none)) →
      s ≠ "" → fromisoformatEpoch (pyStrReplace s "Z" "+00:00") = some e → 0 < e →
      keyLt (parse_iso dt) (parse_iso (some s)) = true) ∧
    ((dt = none ∨ dt = some "" ∨
        (∃ b, dt = some b ∧ b ≠ "" ∧
          fromisoformatEpoch (pyStrReplace b "Z" "+00:00") = none)) →
      (dt' = none ∨ dt' = some "" ∨
        (∃ b, dt' = some b ∧ b ≠ "" ∧
          fromisoformatEpoch (pyStrReplace b "Z" "+00:00") = none)) →
      (parse_iso dt = parse_iso dt' ↔ dt.getD "" = dt'.getD "")) := by
  refine ⟨⟨rfl, rfl⟩, ?_, ?_, ?_⟩
  · intro hne h
    rw [parse_iso, if_neg hne, h]
  · intro hmal hne hsome hpos
    rw [parse_iso_malformed dt hmal]
    rw [parse_iso, if_neg hne, hsome]
    exact (keyLt_iff _ _).mpr (Or.inl hpos)
  · intro hmal hmal'
    rw [parse_iso_malformed dt hmal, parse_iso_malformed dt' hmal']
    simp [Prod.ext_iff]

/-- Witness for the amended C3: the malformed `"zzz"` sorts before the
valid post-epoch timestamp `"2024-01-01T00:00:00Z"`. -/
theorem claim_C3_amended_witness :
    keyLt (parse_iso (some "zzz")) (parse_iso (some "2024-01-01T00:00:00Z")) = true :=
  (claim_C3_amended_timestamp_order (some "zzz") none "2024-01-01T00:00:00Z"
      1704067200).2.2.1
    (Or.inr (Or.inr ⟨"zzz", rfl, by decide, by decide⟩))
    (by decide) (by decide) (by decide)

/-- C4: in the assembled output, each thread's messages are pairwise
non-decreasing in their timestamp sort keys; ties preserve the original
relative order of the qualifying input messages (stability, phrased as:
for every key value, the sublist of messages with that key equals the
corresponding sublist of the normalized input, unsorted); and the thread
list itself is pairwise non-decreasing in the per-thread key; the emitted
output is this list with the working sort fields dropped. -/
theorem claim_C4_ordering (keepHtml : Bool) (msgs : List RawMessage) :
    (∀ t ∈ assembleSorted keepHtml msgs,
      t.messages.Pairwise (fun a b => keyLe (msgKey a) (msgKey b) = true) ∧
      (∀ k : Int × String, t.messages.filter (fun m => msgKey m = k) =
        ((msgs.filter (fun m => m.conversationId = some t.thread_id)).map
          (normalizeMessage keepHtml)).filter (fun m => msgKey m = k))) ∧
    (assembleSorted keepHtml msgs).Pairwise
      (fun a b => keyLe (threadKey a) (threadKey b) = true) ∧
    assemble keepHtml msgs = (assembleSorted keepHtml msgs).map forgetThreadSort := by
  refine ⟨?_, ?_, rfl⟩
  · intro t ht
    obtain ⟨_, _, hmsgs, _⟩ := assembleSorted_mem_spec keepHtml msgs t ht
    constructor
    · rw [hmsgs]
      exact sortMsgs_sorted _
    · intro k
      rw [hmsgs]
      exact sortMsgs_stable _ k
  · exact sortThreads_sorted _

/-- C5: every output thread has a non-empty id, thread ids are pairwise
distinct, each thread's message list is a permutation of exactly the
normalized forms of the input messages carrying that conversation id (so
with multiplicity, every qualifying input message lands in exactly the
one thread named by its conversation id and messages without one land
nowhere), and every non-empty conversation id occurring in the input has
a thread. -/
theorem claim_C5_grouping (keepHtml : Bool) (msgs : List RawMessage) :
    ((assemble keepHtml msgs).map (fun t => t.thread_id)).Nodup ∧
    (∀ t ∈ assemble keepHtml msgs, t.thread_id ≠ "" ∧
      t.messages.Perm ((msgs.filter (fun m => m.conversationId = some t.thread_id)).map
        (outMessage keepHtml))) ∧
    (∀ m ∈ msgs, ∀ c, m.conversationId = some c → c ≠ "" →
      ∃ t ∈ assemble keepHtml msgs, t.thread_id = c) := by
  refine ⟨?_, ?_, ?_⟩
  · have hEq : (assemble keepHtml msgs).map (fun t => t.thread_id) =
        (assembleSorted keepHtml msgs).map (fun t => t.thread_id) := by
      rw [assemble, List.map_map]
      rfl
    rw [hEq]
    exact assembleSorted_ids_nodup keepHtml msgs
  · intro t ht
    rw [assemble, List.mem_map] at ht
    obtain ⟨t', ht', hEq⟩ := ht
    obtain ⟨hne, _, hmsgs, _⟩ := assembleSorted_mem_spec keepHtml msgs t' ht'
    subst hEq
    refine ⟨hne, ?_⟩
    rw [forgetThreadSort]
    dsimp only
    have hperm : t'.messages.Perm
        ((msgs.filter (fun m => m.conversationId = some t'.thread_id)).map
          (normalizeMessage keepHtml)) := by
      rw [hmsgs]
      exact sortMsgs_perm _
    have hmapped := hperm.map forgetSort
    rw [List.map_map] at hmapped
    exact hmapped
  · intro m hm c hconv hcne
    obtain ⟨t, ht, hid⟩ := assembleSorted_exists_thread keepHtml msgs c hcne m hm hconv
    exact ⟨forgetThreadSort t, List.mem_map.mpr ⟨t, ht, rfl⟩, hid⟩

/-- C6: in both markup modes, every message of every output thread
carries the fixed placeholder author `{"displayName": "XXXX"}`, and the
whole assembler output is computed independently of the author-related
input fields: two inputs that agree pointwise on all non-author fields
(id, conversation id, timestamp, body content) produce identical
outputs. -/
theorem claim_C6_anonymization (keepHtml : Bool) (msgs msgs' : List RawMessage) :
    (∀ t ∈ assemble keepHtml msgs, ∀ m ∈ t.messages, m.userDisplayName = "XXXX") ∧
    (List.Forall₂ (fun a b : RawMessage =>
        a.id = b.id ∧ a.conversationId = b.conversationId ∧
        a.createdDateTime = b.createdDateTime ∧ a.content = b.content) msgs msgs' →
      assemble keepHtml msgs = assemble keepHtml msgs') := by
  constructor
  · intro t ht m hm
    rw [assemble, List.mem_map] at ht
    obtain ⟨t', ht', hEq⟩ := ht
    subst hEq
    rw [forgetThreadSort] at hm
    dsimp only at hm
    rw [List.mem_map] at hm
    obtain ⟨m', hm', hEq⟩ := hm
    subst hEq
    obtain ⟨_, _, hmsgs, _⟩ := assembleSorted_mem_spec keepHtml msgs t' ht'
    rw [hmsgs] at hm'
    have hm2 := (sortMsgs_perm _).mem_iff.mp hm'
    rw [List.mem_map] at hm2
    obtain ⟨x, _, hx⟩ := hm2
    rw [← hx]
    rfl
  · intro hrel
    have hfold : ∀ acc, msgs.foldl (addMessage keepHtml) acc =
        msgs'.foldl (addMessage keepHtml) acc := by
      induction hrel with
      | nil => intro acc; rfl
      | @cons a b l1 l2 hab hrest ih =>
        intro acc
        rw [List.foldl_cons, List.foldl_cons]
        obtain ⟨hid, hconv, hdt, hcontent⟩ := hab
        have hnorm : normalizeMessage keepHtml a = normalizeMessage keepHtml b := by
          rw [normalizeMessage, normalizeMessage, hdt, hcontent]
        have hstep : addMessage keepHtml acc a = addMessage keepHtml acc b := by
          rw [addMessage, addMessage, hconv]
          simp only [hnorm]
        rw [hstep]
        exact ih _
    rw [assemble, assemble, assembleSorted, assembleSorted, buildThreads, buildThreads]
    rw [hfold]

/-- C10: every thread in the assembled output contains at least one
message — buckets are created only together with an appended message —
so the inter-thread sort key is always `parse_iso` of the actual first
(earliest) message's raw timestamp, and the zero-message fallback branch
of the thread sort key is never taken. -/
theorem claim_C10_threads_nonempty (keepHtml : Bool) (msgs : List RawMessage)
    (t : AssembledThread) (ht : t ∈ assembleSorted keepHtml msgs) :
    t.messages ≠ [] ∧
    ∃ hd tl, t.messages = hd :: tl ∧ t.threadSort = hd.sortRaw ∧
      threadKey t = parse_iso hd.sortRaw := by
  obtain ⟨_, hne, _, hts⟩ := assembleSorted_mem_spec keepHtml msgs t ht
  refine ⟨hne, ?_⟩
  rcases hmsgs : t.messages with _ | ⟨hd, tl⟩
  · exact absurd hmsgs hne
  · have h1 : t.threadSort = hd.sortRaw := by
      rw [hts, hmsgs]
      rfl
    refine ⟨hd, tl, rfl, h1, ?_⟩
    rw [threadKey, hmsgs, h1]
    simp

/-- Witness for C4 at a one-message input (markup kept): the single
assembled thread's message keys are pairwise non-decreasing. -/
theorem claim_C4_witness :
    ([{ userDisplayName := "XXXX", message := "hi",
        sortRaw := some "2024-01-01T00:00:00Z" }] : List NormalizedMessage).Pairwise
      (fun a b => keyLe (msgKey a) (msgKey b) = true) :=
  ((claim_C4_ordering true
      [{ id := none, conversationId := some "T1",
         createdDateTime := some "2024-01-01T00:00:00Z", content := some "hi",
         authorDisplayName := some "Alice", authorId := some "a1",
         authorEmail := some "a@x" }]).1
    { thread_id := "T1",
      messages := [{ userDisplayName := "XXXX", message := "hi",
                     sortRaw := some "2024-01-01T00:00:00Z" }],
      threadSort := some "2024-01-01T00:00:00Z" }
    (by
      simp [assembleSorted, sortThreads, mkThreadList, buildThreads, addMessage, appendAt,
            sortMsgs, normalizeMessage, List.mergeSort_singleton])).1

/-- Witness for C5: the message with conversation id `"T1"` yields a
thread named `"T1"`. -/
theorem claim_C5_witness :
    ∃ t ∈ assemble true
      [{ id := none, conversationId := some "T1",
         createdDateTime := some "2024-01-01T00:00:00Z", content := some "hi",
         authorDisplayName := some "Alice", authorId := some "a1",
         authorEmail := some "a@x" }], t.thread_id = "T1" :=
  (claim_C5_grouping true
    [{ id := none, conversationId := some "T1",
       createdDateTime := some "2024-01-01T00:00:00Z", content := some "hi",
       authorDisplayName := some "Alice", authorId := some "a1",
       authorEmail := some "a@x" }]).2.2
    { id := none, conversationId := some "T1",
      createdDateTime := some "2024-01-01T00:00:00Z", content := some "hi",
      authorDisplayName := some "Alice", authorId := some "a1",
      authorEmail := some "a@x" }
    (by simp) "T1" rfl (by decide)

/-- Witness for C6: two inputs differing only in the author fields
produce identical assembler output. -/
theorem claim_C6_witness :
    assemble true
      [{ id := none, conversationId := some "T1",
         createdDateTime := some "2024-01-01T00:00:00Z", content := some "hi",
         authorDisplayName := some "Alice", authorId := some "a1",
         authorEmail := some "alice@x" }] =
    assemble true
      [{ id := none, conversationId := some "T1",
         createdDateTime := some "2024-01-01T00:00:00Z", content := some "hi",
         authorDisplayName := some "Bob", authorId := some "b2",
         authorEmail := some "bob@y" }] :=
  (claim_C6_anonymization true _ _).2
    (List.forall₂_cons.mpr ⟨⟨rfl, rfl, rfl, rfl⟩, List.Forall₂.nil⟩)

/-- Witness for C10: the assembled thread of the one-message input is
non-empty. -/
theorem claim_C10_witness :
    ({ thread_id := "T1",
       messages := [{ userDisplayName := "XXXX", message := "hi",
                      sortRaw := some "2024-01-01T00:00:00Z" }],
       threadSort := some "2024-01-01T00:00:00Z" } : AssembledThread).messages ≠ [] :=
  (claim_C10_threads_nonempty true
    [{ id := none, conversationId := some "T1",
       createdDateTime := some "2024-01-01T00:00:00Z", content := some "hi",
       authorDisplayName := some "Alice", authorId := some "a1",
       authorEmail := some "a@x" }]
    { thread_id := "T1",
      messages := [{ userDisplayName := "XXXX", message := "hi",
                     sortRaw := some "2024-01-01T00:00:00Z" }],
      threadSort := some "2024-01-01T00:00:00Z" }
    (by
      simp [assembleSorted, sortThreads, mkThreadList, buildThreads, addMessage, appendAt,
            sortMsgs, normalizeMessage, List.mergeSort_singleton])).1
